import Mathlib

/-!
# CCS fuel-order ledger: shallow embedding and verification

A shallow embedding of the CCS web application's ledger core
(`js/modules/db.js`, `orders.js`, `daily.js`, `regions.js`, `reports.js`).

Modelling conventions:
* JavaScript numbers are modelled as `Int` (the app works with litre
  amounts entered with step 0.1; all arithmetic in the ledger is exact
  on such inputs).
* JavaScript objects used as string-keyed maps (`orders`, `allocations`,
  `dailyLog`, `technicianPlates`, `regions`) are modelled as association
  lists `List (String × α)` with JS object semantics: assigning an
  existing key updates it in place, assigning a fresh key appends, and
  `delete` removes the key.
* DOM-sourced inputs (text fields, the per-card `max` attribute set by
  `updateOrderDetails`, the `data-order` attribute) are modelled as the
  already-extracted values carried by the operation; `.trim()`ed inputs
  are modelled as the trimmed string.
* `alert`/`confirm` interaction: rejected operations return the state
  unchanged; `confirm` dialogs are modelled on their accepted path (the
  cancelled path is the identity).  Code paths where the JS would throw
  a `TypeError` before mutating anything (e.g. deleting a region name
  that does not exist) are modelled as the unchanged state.
-/

/-- Order status, `'OPEN' | 'CLOSED'` in the source. -/
inductive Status where
  | OPEN : Status
  | CLOSED : Status
deriving DecidableEq

/-- An order, as created by `createOrder` in `orders.js`:
`{ orderNo, vehiclePlate, totalLiters, suppliedTotal, allocations, status,
createdDate }` plus the lazily-added `overageComments` map (absent field
modelled as the empty map). -/
structure Order where
  orderNo : String
  vehiclePlate : String
  totalLiters : Int
  suppliedTotal : Int
  allocations : List (String × Int)
  status : Status
  createdDate : String
  overageComments : List (String × String)
deriving DecidableEq

/-- A daily-log entry.  Allocated entries are pushed by `saveDaily` as
`{ orderNo, technician, supplied }` (here `unallocated := false`,
`comment := ""`); unallocated entries as
`{ technician, supplied, comment, unallocated: true }` (here
`orderNo := none`). -/
structure Entry where
  orderNo : Option String
  technician : String
  supplied : Int
  comment : String
  unallocated : Bool
deriving DecidableEq

/-- A region subtree: `{ technicians, technicianPlates, orders, dailyLog }`
(see `DB_DEFAULT` in `db.js` and `addRegion` in `regions.js`). -/
structure Region where
  technicians : List String
  technicianPlates : List (String × String)
  orders : List (String × Order)
  dailyLog : List (String × List Entry)
deriving DecidableEq

/-- The whole store: `{ currentRegion, regions }` (`db.js`). -/
structure DBState where
  currentRegion : String
  regions : List (String × Region)
deriving DecidableEq

/-- One candidate entry card read by `saveDaily` from the DOM.
`maxA` is the `max` attribute of the supplied-litres input (`none` when
the attribute was never set / removed), `orderNo` the `data-order`
attribute, `comment` the trimmed comment input, `unallocated` the
`data-unallocated` flag. -/
structure Card where
  tech : String
  supplied : Int
  unallocated : Bool
  comment : String
  orderNo : Option String
  maxA : Option Int
deriving DecidableEq

/-- A parsed restore candidate document: presence of the two keys the
restore path inspects (`reports.js`, `restoreData`). -/
structure Candidate where
  regions : Option (List (String × Region))
  currentRegion : Option String

/- ── Association-list primitives (JS object semantics) ─────────────── -/

/-- `m[k]` on a JS object: first matching key, if any. -/
def alookup (k : String) : List (String × α) → Option α
  | [] => none
  | p :: t => if p.1 = k then some p.2 else alookup k t

/-- `m[k] = v` on a JS object: update the existing key in place, or
append a fresh key. -/
def aset (k : String) (v : α) : List (String × α) → List (String × α)
  | [] => [(k, v)]
  | p :: t => if p.1 = k then (k, v) :: t else p :: aset k v t

/-- `delete m[k]` on a JS object. -/
def aerase (k : String) : List (String × α) → List (String × α)
  | [] => []
  | p :: t => if p.1 = k then aerase k t else p :: aerase k t

/-- Map over the values of a string-keyed map. -/
def mapVals (g : α → β) (l : List (String × α)) : List (String × β) :=
  l.map (fun p => (p.1, g p.2))

/-- The keys of a map are pairwise distinct (always true of a JS object). -/
def keysND (l : List (String × α)) : Prop := (l.map Prod.fst).Nodup

/-- Sum a valuation of the values of a map
(`Object.values(m).reduce((a, b) => a + f(b), 0)`). -/
def sumBy (f : α → Int) : List (String × α) → Int
  | [] => 0
  | p :: t => f p.2 + sumBy f t

/-- Sum of a map's `Int` values, e.g.
`Object.values(o.allocations).reduce((a, b) => a + b, 0)`. -/
def sumVals (l : List (String × Int)) : Int := sumBy (fun v => v) l

/-- JS truthiness of an optional string (absent, `null` and `""` are
falsy). -/
def jsTruthyO : Option String → Bool
  | none => false
  | some s => !(s == "")

/- ── Daily-log aggregation helpers ─────────────────────────────────── -/

/-- Contribution of one entry to an order's supplied sum. -/
def contrib (no : String) (e : Entry) : Int :=
  if e.orderNo = some no then e.supplied else 0

/-- Sum of supplied litres of the entries of one day referencing order
`no` (`entries.filter(e => e.orderNo === no).reduce(...)`). -/
def entriesSumFor (no : String) : List Entry → Int
  | [] => 0
  | e :: t => contrib no e + entriesSumFor no t

/-- Sum of supplied litres over every daily entry of the region that
references order `no`, across all dates. -/
def suppliedSum (no : String) (r : Region) : Int :=
  sumBy (entriesSumFor no) r.dailyLog

/-- `dailyLog[date].filter(e => e.orderNo !== orderNo)`: the per-day
filter used by `deleteOrder`. -/
def purgeOrder (no : String) : List Entry → List Entry
  | [] => []
  | e :: t => if e.orderNo = some no then purgeOrder no t else e :: purgeOrder no t

/-- Supplied litres of one day attributed to a technician. -/
def techSumE (tech : String) : List Entry → Int
  | [] => 0
  | e :: t => (if e.technician = tech then e.supplied else 0) + techSumE tech t

/-- Number of entries of one day attributed to a technician. -/
def techCountE (tech : String) : List Entry → Nat
  | [] => 0
  | e :: t => (if e.technician = tech then 1 else 0) + techCountE tech t

/-- Supplied litres of a region attributed to a technician, all dates. -/
def techSumR (tech : String) (r : Region) : Int :=
  sumBy (techSumE tech) r.dailyLog

/-- Number of daily entries of a region attributed to a technician. -/
def techCountR (tech : String) (r : Region) : Nat :=
  (r.dailyLog.map (fun p => techCountE tech p.2)).sum

/-- Supplied litres attributed to a technician over the whole store. -/
def techSumDB (tech : String) (s : DBState) : Int :=
  sumBy (techSumR tech) s.regions

/-- Number of daily entries attributed to a technician, whole store. -/
def techCountDB (tech : String) (s : DBState) : Nat :=
  (s.regions.map (fun p => techCountR tech p.2)).sum

/-- Cumulative supplied litres of technician `tech` against order `no`
in one day's entries (`filter(e => e.orderNo === no && e.technician ===
tech)`), used by `updateOrderDetails`. -/
def techUsedE (no tech : String) : List Entry → Int
  | [] => 0
  | e :: t =>
      (if e.orderNo = some no ∧ e.technician = tech then e.supplied else 0) + techUsedE no tech t

/-- `usedSoFar` of `updateOrderDetails` (`daily.js`): technician's
cumulative supplied litres against the order, across all dates. -/
def usedSoFarFor (r : Region) (no tech : String) : Int :=
  sumBy (techUsedE no tech) r.dailyLog

/- ── Operations (faithful translations of the source) ──────────────── -/

/-- Install a new value for the current region
(mutation of `DB.regions[DB.currentRegion]`). -/
def setCur (s : DBState) (r : Region) : DBState :=
  { s with
    regions := aset s.currentRegion r s.regions }

/-- The order object literal of `createOrder`. -/
def newOrder (no plate : String) (total : Int) (date : String) : Order :=
  { orderNo := no, vehiclePlate := plate, totalLiters := total,
    suppliedTotal := 0, allocations := [], status := Status.OPEN,
    createdDate := date, overageComments := [] }

/-- `createOrder` (`orders.js`): rejects a blank or duplicate order
number; otherwise installs a fresh OPEN order with zero supplied total.
`totalLiters` is `+input.value` — the source performs no validation of
the amount. -/
def createOrder (s : DBState) (no plate : String) (total : Int) (date : String) : DBState :=
  match alookup s.currentRegion s.regions with
  | none => s
  | some r =>
      if no = "" ∨ (alookup no r.orders).isSome then s
      else
        setCur s
          { r with
            orders := aset no (newOrder no plate total date) r.orders }

/-- `allocateFuel` (`orders.js`). Note the source's truthiness test
`if (o.allocations[t])`: an existing allocation of exactly 0 does NOT
trigger the already-allocated rejection, and a zero amount is rejected
by `!amt`. -/
def allocateFuel (s : DBState) (orderKey tech : String) (amt : Int) : DBState :=
  match alookup s.currentRegion s.regions with
  | none => s
  | some r =>
      match alookup orderKey r.orders with
      | none => s
      | some o =>
          if tech = "" ∨ amt = 0 then s
          else if (alookup tech o.allocations).getD 0 ≠ 0 then s
          else
            let used := sumVals o.allocations
            if o.totalLiters < used + amt then s
            else
              setCur s
                { r with
                  orders := aset orderKey { o with allocations := aset tech amt o.allocations } r.orders }

/-- `saveAllocEdit` (`orders.js`): re-sums every *other* technician's
allocation and rejects when that sum plus the new amount exceeds the
order total.  Accepts a new amount of 0 (only negatives and NaN are
rejected). -/
def saveAllocEdit (s : DBState) (orderNo tech : String) (newAmt : Int) : DBState :=
  match alookup s.currentRegion s.regions with
  | none => s
  | some r =>
      match alookup orderNo r.orders with
      | none => s
      | some o =>
          if newAmt < 0 then s
          else
            let otherAllocs := sumVals (aerase tech o.allocations)
            if o.totalLiters < otherAllocs + newAmt then s
            else
              setCur s
                { r with
                  orders := aset orderNo { o with allocations := aset tech newAmt o.allocations } r.orders }

/-- `saveOrderDate` (`orders.js`): sets `createdDate`, rejecting a blank
date. -/
def saveOrderDate (s : DBState) (orderNo newDate : String) : DBState :=
  match alookup s.currentRegion s.regions with
  | none => s
  | some r =>
      match alookup orderNo r.orders with
      | none => s
      | some o =>
          if newDate = "" then s
          else
            setCur s
              { r with
                orders := aset orderNo { o with createdDate := newDate } r.orders }

/-- `saveOverageComment` (`orders.js`): stores a non-empty trimmed
comment in the order's `overageComments` map. -/
def saveOverageComment (s : DBState) (orderNo tech comment : String) : DBState :=
  if comment = "" then s
  else
    match alookup s.currentRegion s.regions with
    | none => s
    | some r =>
        match alookup orderNo r.orders with
        | none => s
        | some o =>
            setCur s
              { r with
                orders := aset orderNo { o with overageComments := aset tech comment o.overageComments } r.orders }

/-- `deleteOrder` (`orders.js`), confirmed path: removes the order and
filters every date's entry list down to entries not referencing it.
Date keys are left in place even when their lists become empty. -/
def deleteOrder (s : DBState) (orderNo : String) : DBState :=
  match alookup s.currentRegion s.regions with
  | none => s
  | some r =>
      match alookup orderNo r.orders with
      | none => s
      | some _ =>
          setCur s
            { r with
              orders := aerase orderNo r.orders,
              dailyLog := mapVals (purgeOrder orderNo) r.dailyLog }

/-- The order object literal of `confirmClone`. -/
def cloneOrder (src : Order) (newNo newDate : String) : Order :=
  { orderNo := newNo, vehiclePlate := src.vehiclePlate,
    totalLiters := src.totalLiters, suppliedTotal := 0,
    allocations := src.allocations, status := Status.OPEN,
    createdDate := newDate, overageComments := [] }

/-- `confirmClone` (`orders.js`): copies plate, total litres and the
allocation map by value; resets supplied total to 0 and status to OPEN;
rejects a blank or existing new order number. -/
def confirmClone (s : DBState) (srcNo newNo newDate : String) : DBState :=
  match alookup s.currentRegion s.regions with
  | none => s
  | some r =>
      match alookup srcNo r.orders with
      | none => s
      | some src =>
          if newNo = "" then s
          else if (alookup newNo r.orders).isSome then s
          else
            setCur s
              { r with
                orders := aset newNo (cloneOrder src newNo newDate) r.orders }

/-- The empty region literal of `addRegion`. -/
def emptyRegion : Region :=
  { technicians := [], technicianPlates := [], orders := [], dailyLog := [] }

/-- `addRegion` (`regions.js`). -/
def addRegion (s : DBState) (name : String) : DBState :=
  if name = "" ∨ (alookup name s.regions).isSome then s
  else
    { s with
      regions := aset name emptyRegion s.regions }

/-- `deleteRegion` (`regions.js`), confirmed path: refuses to delete the
only region; moves `currentRegion` to the first remaining region when
the current one is deleted. -/
def deleteRegion (s : DBState) (rName : String) : DBState :=
  if s.regions.length ≤ 1 then s
  else
    match alookup rName s.regions with
    | none => s
    | some _ =>
        let regions' := aerase rName s.regions
        { currentRegion :=
            if s.currentRegion = rName then ((regions'.head?).map Prod.fst).getD "" else s.currentRegion,
          regions := regions' }

/-- `addTechnician` (`regions.js`). -/
def addTechnician (s : DBState) (tech plate : String) : DBState :=
  match alookup s.currentRegion s.regions with
  | none => s
  | some r =>
      if tech = "" ∨ plate = "" then s
      else if tech ∈ r.technicians then s
      else
        setCur s
          { r with
            technicians := r.technicians ++ [tech],
            technicianPlates := aset tech plate r.technicianPlates }

/-- `deleteTech` (`regions.js`), confirmed path: removes the technician
from the list and plate map and deletes their allocation entry from
every order; daily entries are untouched. -/
def deleteTech (s : DBState) (tech : String) : DBState :=
  match alookup s.currentRegion s.regions with
  | none => s
  | some r =>
      setCur s
        { r with
          technicians := r.technicians.filter (fun t => t ≠ tech),
          technicianPlates := aerase tech r.technicianPlates,
          orders := mapVals (fun o => { o with allocations := aerase tech o.allocations }) r.orders }

/-- `_renameRegion` (`regions.js`) behind `confirmRename`'s non-blank
guard: no-op when names are equal, rejected when the new name exists;
otherwise assigns the subtree to the new key (appended) and deletes the
old key. -/
def renameRegion (s : DBState) (oldN newN : String) : DBState :=
  if newN = "" then s
  else if newN = oldN then s
  else if (alookup newN s.regions).isSome then s
  else
    match alookup oldN s.regions with
    | none => s
    | some r =>
        { currentRegion := if s.currentRegion = oldN then newN else s.currentRegion,
          regions := aerase oldN (aset newN r s.regions) }

/-- The key migration `m[new] = m[old]; delete m[old]` guarded by
`m[old] !== undefined`, used by `_renameTech` for plates, allocations
and overage comments. -/
def migrate (oldN newN : String) (m : List (String × α)) : List (String × α) :=
  match alookup oldN m with
  | none => m
  | some v => aerase oldN (aset newN v m)

/-- Per-entry rewrite of `_renameTech`. -/
def renameEntryTech (oldN newN : String) (e : Entry) : Entry :=
  if e.technician = oldN then { e with technician := newN } else e

/-- The per-region body of `_renameTech`, applied only when the region's
technician list contains the old name. -/
def renameTechRegion (oldN newN : String) (r : Region) : Region :=
  { technicians := r.technicians.replace oldN newN,
    technicianPlates := migrate oldN newN r.technicianPlates,
    orders := mapVals
      (fun o => { o with allocations := migrate oldN newN o.allocations,
                         overageComments := migrate oldN newN o.overageComments }) r.orders,
    dailyLog := mapVals (List.map (renameEntryTech oldN newN)) r.dailyLog }

/-- `_renameTech` (`regions.js`) behind `confirmRename`'s non-blank
guard: no-op when equal; for every region whose technician list contains
the old name, replaces the name in the list, migrates the plate key and
every order's allocation and overage-comment keys, and rewrites every
daily entry's technician field.  Regions whose technician list does NOT
contain the old name are skipped entirely (`indexOf === -1` early
return), even if their daily log still holds entries under that name. -/
def renameTech (s : DBState) (oldN newN : String) : DBState :=
  if newN = "" then s
  else if newN = oldN then s
  else
    { s with
      regions :=
        s.regions.map (fun p =>
          if oldN ∈ p.2.technicians then (p.1, renameTechRegion oldN newN p.2) else p) }

/- ── Daily supply recorder (`daily.js`) ────────────────────────────── -/

/-- Append one entry to the day's list
(`region.dailyLog[d].push(entry)`). -/
def pushEntry (date : String) (e : Entry) (r : Region) : Region :=
  { r with
    dailyLog := aset date (((alookup date r.dailyLog).getD []) ++ [e]) r.dailyLog }

/-- One iteration of the `cards.forEach` loop of `saveDaily`, threading
`(region, saved, skipped)`.  Faithful points: cards with a blank
technician or a non-positive amount fall through silently (no counter);
unallocated cards without a comment count as skipped; for allocated
cards the cap is `+max || Infinity`, so a `max` attribute of `0` (or an
absent attribute) means NO cap, and the actual applied amount is
`Math.min(supplied, maxAllowed)`. -/
def procCard (date : String) (acc : Region × Nat × Nat) (c : Card) : Region × Nat × Nat :=
  if c.tech = "" ∨ c.supplied ≤ 0 then acc
  else if c.unallocated then
    if c.comment = "" then (acc.1, acc.2.1, acc.2.2 + 1)
    else
      (pushEntry date
        { orderNo := none, technician := c.tech, supplied := c.supplied,
          comment := c.comment, unallocated := true } acc.1,
       acc.2.1 + 1, acc.2.2)
  else
    match c.orderNo with
    | none => acc
    | some no =>
        if no = "" then acc
        else
          match alookup no acc.1.orders with
          | none => acc
          | some o =>
              if o.status = Status.CLOSED then acc
              else
                let actual :=
                  match c.maxA with
                  | none => c.supplied
                  | some m => if m = 0 then c.supplied else min c.supplied m
                (pushEntry date
                  { orderNo := some no, technician := c.tech, supplied := actual,
                    comment := "", unallocated := false }
                  { acc.1 with orders := aset no { o with suppliedTotal := o.suppliedTotal + actual } acc.1.orders },
                 acc.2.1 + 1, acc.2.2)

/-- `if (!region.dailyLog[d]) region.dailyLog[d] = [];` -/
def ensureDate (date : String) (r : Region) : Region :=
  if (alookup date r.dailyLog).isSome then r
  else { r with dailyLog := aset date [] r.dailyLog }

/-- The closing pass of `saveDaily`:
`if (o.suppliedTotal >= o.totalLiters) o.status = 'CLOSED';` -/
def closeIf (o : Order) : Order :=
  if o.totalLiters ≤ o.suppliedTotal then { o with status := Status.CLOSED } else o

/-- `saveDaily` (`daily.js`): rejects a blank date; ensures the date key
exists; rejects an empty card list (after the date key was installed);
processes every card; then closes every order whose supplied total
reached its total.  Returns the new state with the `(saved, skipped)`
counts reported to the user. -/
def saveDailyRes (s : DBState) (date : String) (cards : List Card) : DBState × Nat × Nat :=
  if date = "" then (s, 0, 0)
  else
    match alookup s.currentRegion s.regions with
    | none => (s, 0, 0)
    | some r =>
        let r0 := ensureDate date r
        if cards = [] then ({ s with regions := aset s.currentRegion r0 s.regions }, 0, 0)
        else
          let res := List.foldl (procCard date) (r0, 0, 0) cards
          let r2 := { res.1 with orders := mapVals closeIf res.1.orders }
          ({ s with regions := aset s.currentRegion r2 s.regions }, res.2.1, res.2.2)

/-- `saveDaily`, state part. -/
def saveDaily (s : DBState) (date : String) (cards : List Card) : DBState :=
  (saveDailyRes s date cards).1

/-- `saveEditEntry` (`daily.js`): rejects non-positive amounts and empty
comments on unallocated entries; applies the signed delta to the
referenced order's supplied total, clamped at 0; re-derives the order's
status (may reopen a closed order, then closes when at or above total);
finally rewrites the entry's amount (and comment when unallocated). -/
def saveEditEntry (s : DBState) (date : String) (idx : Nat) (newSupply : Int) (newComment : String) : DBState :=
  match alookup s.currentRegion s.regions with
  | none => s
  | some r =>
      match alookup date r.dailyLog with
      | none => s
      | some entries =>
          if h : idx < entries.length then
            let entry := entries.get ⟨idx, h⟩
            if newSupply ≤ 0 then s
            else if entry.unallocated = true ∧ newComment = "" then s
            else
              let diff := newSupply - entry.supplied
              let r1 :=
                if entry.unallocated = false ∧ jsTruthyO entry.orderNo = true then
                  match entry.orderNo with
                  | some no =>
                      match alookup no r.orders with
                      | some o =>
                          let sup := max 0 (o.suppliedTotal + diff)
                          let st1 := if o.status = Status.CLOSED ∧ sup < o.totalLiters then Status.OPEN else o.status
                          let st2 := if o.totalLiters ≤ sup then Status.CLOSED else st1
                          { r with orders := aset no { o with suppliedTotal := sup, status := st2 } r.orders }
                      | none => r
                  | none => r
                else r
              let e' :=
                { entry with
                  supplied := newSupply,
                  comment := if entry.unallocated then newComment else entry.comment }
              setCur s { r1 with dailyLog := aset date (entries.set idx e') r1.dailyLog }
          else s

/-- `deleteDailyEntry` (`daily.js`), confirmed path: reverses the
entry's effect on the referenced order's supplied total (clamped at 0),
may reopen a closed order, removes the entry, and removes the date key
when the list becomes empty. -/
def deleteDailyEntry (s : DBState) (date : String) (idx : Nat) : DBState :=
  match alookup s.currentRegion s.regions with
  | none => s
  | some r =>
      match alookup date r.dailyLog with
      | none => s
      | some entries =>
          if h : idx < entries.length then
            let entry := entries.get ⟨idx, h⟩
            let r1 :=
              if entry.unallocated = false ∧ jsTruthyO entry.orderNo = true then
                match entry.orderNo with
                | some no =>
                    match alookup no r.orders with
                    | some o =>
                        let sup := max 0 (o.suppliedTotal - entry.supplied)
                        let st := if o.status = Status.CLOSED ∧ sup < o.totalLiters then Status.OPEN else o.status
                        { r with orders := aset no { o with suppliedTotal := sup, status := st } r.orders }
                    | none => r
                | none => r
              else r
            let es' := entries.eraseIdx idx
            let log' := if es' = [] then aerase date r1.dailyLog else aset date es' r1.dailyLog
            { s with regions := aset s.currentRegion { r1 with dailyLog := log' } s.regions }
          else s

/-- `restoreData` (`reports.js`), confirmed path: the candidate is
rejected unless `parsed.regions` and `parsed.currentRegion` are both
truthy (an empty-string current region is falsy and rejected, but an
EMPTY `regions` object is truthy and accepted); on acceptance the whole
store is replaced by the candidate document. -/
def restoreData (s : DBState) (c : Candidate) : DBState :=
  match c.regions, c.currentRegion with
  | some rs, some cr => if cr = "" then s else { currentRegion := cr, regions := rs }
  | _, _ => s

/-- `updateOrderDetails` (`daily.js`) as a card builder: the supplied
input's `max` attribute is set to
`Math.min(max(0, allocated - usedSoFar), totalLiters - suppliedTotal)`
and `data-order` to the order number. -/
def mkCard (r : Region) (o : Order) (tech : String) (supplied : Int) : Card :=
  { tech := tech, supplied := supplied, unallocated := false, comment := "",
    orderNo := some o.orderNo,
    maxA := some (min (max 0 ((alookup tech o.allocations).getD 0 - usedSoFarFor r o.orderNo tech))
                      (o.totalLiters - o.suppliedTotal)) }

/-- The store effect of `_buildOrderCard` (`orders.js`):
`if (bal <= 0 && o.status !== 'CLOSED') o.status = 'CLOSED';` — order
rendering WRITES the status field. -/
def normCard (o : Order) : Order :=
  if o.totalLiters - o.suppliedTotal ≤ 0 ∧ o.status ≠ Status.CLOSED then
    { o with status := Status.CLOSED }
  else o

/-- The store effect of `renderOrders` (`orders.js`) with no date or
technician filter active: every order card of the current region is
built, applying `normCard` to each order. -/
def renderOrdersState (s : DBState) : DBState :=
  match alookup s.currentRegion s.regions with
  | none => s
  | some r =>
      { s with regions := aset s.currentRegion { r with orders := mapVals normCard r.orders } s.regions }

/- ── The mutating operations, as one type ──────────────────────────── -/

/-- Every mutating ledger operation of the application (the enumerations
of the invariant claims, plus the remaining store mutations other than
restore, which is modelled separately by `restoreData`). -/
inductive Op where
  | createOrder (no plate : String) (total : Int) (date : String)
  | allocateFuel (orderKey tech : String) (amt : Int)
  | saveAllocEdit (orderNo tech : String) (newAmt : Int)
  | saveOrderDate (orderNo newDate : String)
  | saveOverageComment (orderNo tech comment : String)
  | deleteOrder (orderNo : String)
  | confirmClone (srcNo newNo newDate : String)
  | saveDaily (date : String) (cards : List Card)
  | saveEditEntry (date : String) (idx : Nat) (newSupply : Int) (newComment : String)
  | deleteDailyEntry (date : String) (idx : Nat)
  | addRegion (name : String)
  | deleteRegion (name : String)
  | addTechnician (tech plate : String)
  | deleteTech (tech : String)
  | renameRegion (oldN newN : String)
  | renameTech (oldN newN : String)

/-- Dispatch an operation. -/
def applyOp (op : Op) (s : DBState) : DBState :=
  match op with
  | Op.createOrder no plate total date => createOrder s no plate total date
  | Op.allocateFuel orderKey tech amt => allocateFuel s orderKey tech amt
  | Op.saveAllocEdit orderNo tech newAmt => saveAllocEdit s orderNo tech newAmt
  | Op.saveOrderDate orderNo newDate => saveOrderDate s orderNo newDate
  | Op.saveOverageComment orderNo tech comment => saveOverageComment s orderNo tech comment
  | Op.deleteOrder orderNo => deleteOrder s orderNo
  | Op.confirmClone srcNo newNo newDate => confirmClone s srcNo newNo newDate
  | Op.saveDaily date cards => saveDaily s date cards
  | Op.saveEditEntry date idx newSupply newComment => saveEditEntry s date idx newSupply newComment
  | Op.deleteDailyEntry date idx => deleteDailyEntry s date idx
  | Op.addRegion name => addRegion s name
  | Op.deleteRegion name => deleteRegion s name
  | Op.addTechnician tech plate => addTechnician s tech plate
  | Op.deleteTech tech => deleteTech s tech
  | Op.renameRegion oldN newN => renameRegion s oldN newN
  | Op.renameTech oldN newN => renameTech s oldN newN

/- ── Invariants ────────────────────────────────────────────────────── -/

/-- Spec invariant 3 for one order: `status = CLOSED` iff
`suppliedTotal ≥ totalLiters`. -/
def StatusOK (o : Order) : Prop := o.status = Status.CLOSED ↔ o.totalLiters ≤ o.suppliedTotal

/-- Positive order total. -/
def PosTotal (o : Order) : Prop := 0 < o.totalLiters

/-- Spec invariant 1 for one order: sum of allocations ≤ total litres. -/
def AllocLe (o : Order) : Prop := sumVals o.allocations ≤ o.totalLiters

/-- All allocation amounts of an order are non-negative. -/
def AllocNN (o : Order) : Prop := ∀ p ∈ o.allocations, 0 ≤ p.2

/-- Well-formedness of one entry as produced by the recorder: positive
amount; unallocated entries carry no order reference; allocated entries
carry a non-empty order reference. -/
def EntryOK (e : Entry) : Prop :=
  0 < e.supplied ∧ (e.unallocated = true → e.orderNo = none) ∧
    (e.unallocated = false → e.orderNo ≠ none ∧ e.orderNo ≠ some "")

/-- A `∀ orders of the store` invariant. -/
def OrdersInv (P : Order → Prop) (s : DBState) : Prop :=
  ∀ p ∈ s.regions, ∀ q ∈ p.2.orders, P q.2

/-- Claim C1's invariant: every order's status is CLOSED iff its
supplied total reached its total litres. -/
def StatusInv (s : DBState) : Prop := OrdersInv StatusOK s

/-- Every order has a positive total. -/
def PosInv (s : DBState) : Prop := OrdersInv PosTotal s

/-- Claim C3's invariant: every order's allocation sum is at most its
total litres. -/
def AllocInv (s : DBState) : Prop := OrdersInv AllocLe s

/-- Every allocation amount in the store is non-negative. -/
def AllocNNInv (s : DBState) : Prop := OrdersInv AllocNN s

/-- Every daily entry of one region is well formed. -/
def EntInvR (r : Region) : Prop := ∀ p ∈ r.dailyLog, ∀ e ∈ p.2, EntryOK e

/-- Every daily entry of the store is well formed. -/
def EntInv (s : DBState) : Prop := ∀ p ∈ s.regions, EntInvR p.2

/-- Every allocated daily entry of one region references an existing
order of that region (the reference is read with default `""`, which
under `EntryOK` never occurs for an allocated entry). -/
def RefInvR (r : Region) : Prop :=
  ∀ p ∈ r.dailyLog, ∀ e ∈ p.2, e.unallocated = false →
    (alookup (e.orderNo.getD "") r.orders).isSome = true

/-- Every allocated daily entry references an existing order. -/
def RefInv (s : DBState) : Prop := ∀ p ∈ s.regions, RefInvR p.2

/-- Claim C2's invariant for one region: the cached `suppliedTotal` of
every order equals the sum of supplied litres of all daily entries
referencing it, across all dates of that region. -/
def SuppInvR (r : Region) : Prop :=
  ∀ q ∈ r.orders, q.2.suppliedTotal = suppliedSum q.1 r

/-- Claim C2's invariant. -/
def SuppInv (s : DBState) : Prop := ∀ p ∈ s.regions, SuppInvR p.2

/-- All keyed maps of the store have pairwise-distinct keys (always true
of JavaScript objects). -/
def WF (s : DBState) : Prop :=
  keysND s.regions ∧
    ∀ p ∈ s.regions,
      keysND p.2.orders ∧ keysND p.2.dailyLog ∧ keysND p.2.technicianPlates ∧
        ∀ q ∈ p.2.orders, keysND q.2.allocations ∧ keysND q.2.overageComments

/-- The conjunction of the structural invariants of reachable stores. -/
def Good (s : DBState) : Prop :=
  WF s ∧ PosInv s ∧ StatusInv s ∧ EntInv s ∧ RefInv s ∧ SuppInv s ∧ AllocInv s ∧ AllocNNInv s

/-- Guard used by the amended C1: orders are only created with a
positive total (the UI's intent; the source performs no validation). -/
def CreatePos : Op → Prop
  | Op.createOrder _ _ total _ => 0 < total
  | _ => True

/-- Guard used by the amended C3: orders are only created with a
non-negative total and fuel is only allocated in non-negative amounts
(the source accepts negative inputs for both). -/
def CreateNN : Op → Prop
  | Op.createOrder _ _ total _ => 0 ≤ total
  | Op.allocateFuel _ _ amt => 0 ≤ amt
  | _ => True

/- ── Decidability of the invariants ────────────────────────────────── -/

instance (o : Order) : Decidable (StatusOK o) := by unfold StatusOK; infer_instance

instance (o : Order) : Decidable (PosTotal o) := by unfold PosTotal; infer_instance

instance (o : Order) : Decidable (AllocLe o) := by unfold AllocLe; infer_instance

instance (o : Order) : Decidable (AllocNN o) := by unfold AllocNN; infer_instance

instance (e : Entry) : Decidable (EntryOK e) := by unfold EntryOK; infer_instance

instance (P : Order → Prop) [DecidablePred P] (s : DBState) : Decidable (OrdersInv P s) := by
  unfold OrdersInv; infer_instance

instance (s : DBState) : Decidable (StatusInv s) := by unfold StatusInv; infer_instance

instance (s : DBState) : Decidable (PosInv s) := by unfold PosInv; infer_instance

instance (s : DBState) : Decidable (AllocInv s) := by unfold AllocInv; infer_instance

instance (s : DBState) : Decidable (AllocNNInv s) := by unfold AllocNNInv; infer_instance

instance (r : Region) : Decidable (EntInvR r) := by unfold EntInvR; infer_instance

instance (s : DBState) : Decidable (EntInv s) := by unfold EntInv; infer_instance

instance (r : Region) : Decidable (RefInvR r) := by unfold RefInvR; infer_instance

instance (s : DBState) : Decidable (RefInv s) := by unfold RefInv; infer_instance

instance (r : Region) : Decidable (SuppInvR r) := by unfold SuppInvR; infer_instance

instance (s : DBState) : Decidable (SuppInv s) := by unfold SuppInv; infer_instance

instance (l : List (String × α)) : Decidable (keysND l) := by unfold keysND; infer_instance

instance (s : DBState) : Decidable (WF s) := by unfold WF; infer_instance

instance (s : DBState) : Decidable (Good s) := by unfold Good; infer_instance

/- ── Concrete states used by witnesses and counterexamples ─────────── -/

/-- `DB_DEFAULT` of `db.js`. -/
def initState : DBState :=
  { currentRegion := "New CCS",
    regions := [("New CCS",
      { technicians := [], technicianPlates := [], orders := [], dailyLog := [] })] }

/-- A small populated store satisfying every invariant: one region, one
technician, one open order with one allocation and one matching daily
entry. -/
def wOrder : Order :=
  { orderNo := "O1", vehiclePlate := "P1", totalLiters := 100, suppliedTotal := 5,
    allocations := [("A", 60)], status := Status.OPEN, createdDate := "2026-01-01",
    overageComments := [] }

/-- The region of `wState`. -/
def wRegion : Region :=
  { technicians := ["A"], technicianPlates := [("A", "V1")],
    orders := [("O1", wOrder)],
    dailyLog := [("2026-01-01",
      [{ orderNo := some "O1", technician := "A", supplied := 5, comment := "",
         unallocated := false }])] }

/-- A populated well-formed store. -/
def wState : DBState := { currentRegion := "R", regions := [("R", wRegion)] }

/- ── Association-list lemmas ───────────────────────────────────────── -/

theorem alookup_aset_self (k : String) (v : α) (l : List (String × α)) :
    alookup k (aset k v l) = some v := by
  induction l with
  | nil => simp [aset, alookup]
  | cons p t ih =>
      by_cases h : p.1 = k
      · simp [aset, h, alookup]
      · simp [aset, h, alookup, ih]

theorem alookup_aset_ne (h : k' ≠ k) (v : α) (l : List (String × α)) :
    alookup k' (aset k v l) = alookup k' l := by
  induction l with
  | nil =>
      simp only [aset, alookup]
      rw [if_neg (show ¬ k = k' from fun hh => h hh.symm)]
  | cons p t ih =>
      by_cases hp : p.1 = k
      · rw [aset, if_pos hp]
        simp only [alookup]
        rw [if_neg (show ¬ k = k' from fun hh => h hh.symm),
            if_neg (show ¬ p.1 = k' by rw [hp]; exact fun hh => h hh.symm)]
      · by_cases hp' : p.1 = k'
        · rw [aset, if_neg hp, alookup, if_pos hp', alookup, if_pos hp']
        · rw [aset, if_neg hp, alookup, if_neg hp', alookup, if_neg hp', ih]

theorem alookup_mem {l : List (String × α)} (h : alookup k l = some v) : (k, v) ∈ l := by
  induction l with
  | nil => simp [alookup] at h
  | cons p t ih =>
      by_cases hp : p.1 = k
      · rw [alookup, if_pos hp] at h
        have h2 : p.2 = v := by injection h
        rw [← h2, ← hp]
        exact List.mem_cons_self _ _
      · rw [alookup, if_neg hp] at h
        exact List.mem_cons_of_mem _ (ih h)

theorem mem_aset {l : List (String × α)} (h : p ∈ aset k v l) : p = (k, v) ∨ p ∈ l := by
  induction l with
  | nil => simpa [aset] using h
  | cons q t ih =>
      by_cases hq : q.1 = k
      · rw [aset, if_pos hq] at h
        rcases List.mem_cons.mp h with h1 | h1
        · exact Or.inl h1
        · exact Or.inr (List.mem_cons_of_mem _ h1)
      · rw [aset, if_neg hq] at h
        rcases List.mem_cons.mp h with h1 | h1
        · exact Or.inr (h1 ▸ List.mem_cons_self _ _)
        · rcases ih h1 with h2 | h2
          · exact Or.inl h2
          · exact Or.inr (List.mem_cons_of_mem _ h2)

theorem mem_keys_of_mem {l : List (String × α)} (h : p ∈ l) : p.1 ∈ l.map Prod.fst :=
  List.mem_map.mpr ⟨p, h, rfl⟩

theorem mem_aset_strong {l : List (String × α)} (hnd : keysND l) (hp : p ∈ aset k v l) :
    p = (k, v) ∨ (p ∈ l ∧ p.1 ≠ k) := by
  induction l with
  | nil => simp [aset] at hp; exact Or.inl hp
  | cons q t ih =>
      rw [keysND, List.map_cons, List.nodup_cons] at hnd
      by_cases hq : q.1 = k
      · rw [aset, if_pos hq] at hp
        rcases List.mem_cons.mp hp with h1 | h1
        · exact Or.inl h1
        · refine Or.inr ⟨List.mem_cons_of_mem _ h1, ?_⟩
          intro hpk
          exact hnd.1 (hq ▸ hpk ▸ mem_keys_of_mem h1)
      · rw [aset, if_neg hq] at hp
        rcases List.mem_cons.mp hp with h1 | h1
        · exact Or.inr ⟨h1 ▸ List.mem_cons_self _ _, h1 ▸ hq⟩
        · rcases ih hnd.2 h1 with h2 | h2
          · exact Or.inl h2
          · exact Or.inr ⟨List.mem_cons_of_mem _ h2.1, h2.2⟩

theorem mem_aset_self (k : String) (v : α) (l : List (String × α)) : (k, v) ∈ aset k v l := by
  induction l with
  | nil => simp [aset]
  | cons q t ih =>
      by_cases hq : q.1 = k
      · simp [aset, hq]
      · rw [aset, if_neg hq]
        exact List.mem_cons_of_mem _ ih

theorem mem_aerase {l : List (String × α)} : p ∈ aerase k l ↔ p ∈ l ∧ p.1 ≠ k := by
  induction l with
  | nil => simp [aerase]
  | cons q t ih =>
      by_cases hq : q.1 = k
      · rw [aerase, if_pos hq, ih]
        constructor
        · rintro ⟨h1, h2⟩
          exact ⟨List.mem_cons_of_mem _ h1, h2⟩
        · rintro ⟨h1, h2⟩
          rcases List.mem_cons.mp h1 with h3 | h3
          · exact absurd (h3 ▸ hq) h2
          · exact ⟨h3, h2⟩
      · rw [aerase, if_neg hq]
        constructor
        · intro h1
          rcases List.mem_cons.mp h1 with h3 | h3
          · exact ⟨h3 ▸ List.mem_cons_self _ _, h3 ▸ hq⟩
          · exact ⟨List.mem_cons_of_mem _ (ih.mp h3).1, (ih.mp h3).2⟩
        · rintro ⟨h1, h2⟩
          rcases List.mem_cons.mp h1 with h3 | h3
          · exact h3 ▸ List.mem_cons_self _ _
          · exact List.mem_cons_of_mem _ (ih.mpr ⟨h3, h2⟩)

theorem alookup_aerase_self (k : String) (l : List (String × α)) :
    alookup k (aerase k l) = none := by
  induction l with
  | nil => simp [aerase, alookup]
  | cons q t ih =>
      by_cases hq : q.1 = k
      · simpa [aerase, hq] using ih
      · simp [aerase, hq, alookup, ih]

theorem alookup_aerase_ne (h : k' ≠ k) (l : List (String × α)) :
    alookup k' (aerase k l) = alookup k' l := by
  induction l with
  | nil => simp [aerase]
  | cons q t ih =>
      by_cases hq : q.1 = k
      · rw [aerase, if_pos hq, ih, alookup, if_neg (by rw [hq]; exact fun hh => h hh.symm)]
      · rw [aerase, if_neg hq, alookup, alookup]
        by_cases hq' : q.1 = k'
        · simp [hq']
        · simp [hq', ih]

theorem alookup_mapVals (k : String) (g : α → β) (l : List (String × α)) :
    alookup k (mapVals g l) = (alookup k l).map g := by
  induction l with
  | nil => simp [mapVals, alookup]
  | cons q t ih =>
      by_cases hq : q.1 = k
      · simp [mapVals, alookup, hq]
      · simpa [mapVals, alookup, hq] using ih

theorem mem_mapVals {l : List (String × α)} (h : p ∈ mapVals g l) :
    ∃ q ∈ l, p = (q.1, g q.2) := by
  rcases List.mem_map.mp h with ⟨q, hq, rfl⟩
  exact ⟨q, hq, rfl⟩

theorem keys_aset_sub (k : String) (v : α) (l : List (String × α)) :
    ∀ x ∈ (aset k v l).map Prod.fst, x ∈ l.map Prod.fst ∨ x = k := by
  intro x hx
  rcases List.mem_map.mp hx with ⟨p, hp, rfl⟩
  rcases mem_aset hp with h1 | h1
  · exact Or.inr (by rw [h1])
  · exact Or.inl (mem_keys_of_mem h1)

theorem keysND_aset (k : String) (v : α) {l : List (String × α)} (h : keysND l) :
    keysND (aset k v l) := by
  induction l with
  | nil => simp [aset, keysND]
  | cons q t ih =>
      rw [keysND, List.map_cons, List.nodup_cons] at h
      by_cases hq : q.1 = k
      · rw [aset, if_pos hq, keysND, List.map_cons, List.nodup_cons]
        exact ⟨hq ▸ h.1, h.2⟩
      · rw [aset, if_neg hq, keysND, List.map_cons, List.nodup_cons]
        refine ⟨?_, ih h.2⟩
        intro hmem
        rcases List.mem_map.mp hmem with ⟨p, hp, hpq⟩
        rcases mem_aset hp with h1 | h1
        · exact hq (by rw [h1] at hpq; exact hpq.symm)
        · exact h.1 (hpq ▸ mem_keys_of_mem h1)

theorem keysND_aerase (k : String) {l : List (String × α)} (h : keysND l) :
    keysND (aerase k l) := by
  induction l with
  | nil => simp [aerase, keysND]
  | cons q t ih =>
      rw [keysND, List.map_cons, List.nodup_cons] at h
      by_cases hq : q.1 = k
      · rw [aerase, if_pos hq]
        exact ih h.2
      · rw [aerase, if_neg hq, keysND, List.map_cons, List.nodup_cons]
        refine ⟨?_, ih h.2⟩
        intro hmem
        rcases List.mem_map.mp hmem with ⟨p, hp, hpq⟩
        exact h.1 (hpq ▸ mem_keys_of_mem (mem_aerase.mp hp).1)

theorem keysND_mapVals (g : α → β) {l : List (String × α)} (h : keysND l) :
    keysND (mapVals g l) := by
  have : (mapVals g l).map Prod.fst = l.map Prod.fst := by
    induction l with
    | nil => simp [mapVals]
    | cons q t ih => simp [mapVals]
  rw [keysND, this]
  exact h

theorem aset_lookup_self {l : List (String × α)} (h : alookup k l = some v) :
    aset k v l = l := by
  induction l with
  | nil => simp [alookup] at h
  | cons q t ih =>
      by_cases hq : q.1 = k
      · rw [alookup, if_pos hq] at h
        have h2 : q.2 = v := by injection h
        rw [aset, if_pos hq, ← h2, ← hq]
      · rw [alookup, if_neg hq] at h
        rw [aset, if_neg hq, ih h]

theorem aerase_of_none {l : List (String × α)} (h : alookup k l = none) :
    aerase k l = l := by
  induction l with
  | nil => simp [aerase]
  | cons q t ih =>
      by_cases hq : q.1 = k
      · rw [alookup, if_pos hq] at h
        cases h
      · rw [alookup, if_neg hq] at h
        rw [aerase, if_neg hq, ih h]

theorem aset_ne_nil (k : String) (v : α) (l : List (String × α)) : aset k v l ≠ [] := by
  induction l with
  | nil => simp [aset]
  | cons q t ih =>
      by_cases hq : q.1 = k
      · simp [aset, hq]
      · simp [aset, hq]

theorem aerase_length {l : List (String × α)} (hnd : keysND l) (h : alookup k l = some v) :
    (aerase k l).length + 1 = l.length := by
  induction l with
  | nil => simp [alookup] at h
  | cons q t ih =>
      rw [keysND, List.map_cons, List.nodup_cons] at hnd
      by_cases hq : q.1 = k
      · rw [aerase, if_pos hq]
        have : alookup k t = none := by
          by_contra hc
          rcases Option.ne_none_iff_exists'.mp hc with ⟨w, hw⟩
          exact hnd.1 (hq ▸ mem_keys_of_mem (alookup_mem hw))
        rw [aerase_of_none this]
        simp
      · rw [alookup, if_neg hq] at h
        rw [aerase, if_neg hq]
        simp only [List.length_cons]
        rw [← ih hnd.2 h]

/- ── Sum lemmas ────────────────────────────────────────────────────── -/

theorem sumBy_aset (f : α → Int) (k : String) (v : α) {l : List (String × α)}
    (hnd : keysND l) : sumBy f (aset k v l) = sumBy f (aerase k l) + f v := by
  induction l with
  | nil => simp [aset, aerase, sumBy]
  | cons q t ih =>
      rw [keysND, List.map_cons, List.nodup_cons] at hnd
      by_cases hq : q.1 = k
      · rw [aset, if_pos hq, aerase, if_pos hq, sumBy]
        have hnone : alookup k t = none := by
          by_contra hc
          rcases Option.ne_none_iff_exists'.mp hc with ⟨w, hw⟩
          exact hnd.1 (hq ▸ mem_keys_of_mem (alookup_mem hw))
        rw [aerase_of_none hnone]
        ring
      · rw [aset, if_neg hq, aerase, if_neg hq, sumBy, sumBy, ih hnd.2]
        ring

theorem sumBy_split (f : α → Int) (k : String) {l : List (String × α)}
    (hnd : keysND l) : sumBy f l = sumBy f (aerase k l) + ((alookup k l).map f).getD 0 := by
  induction l with
  | nil => simp [aerase, sumBy, alookup]
  | cons q t ih =>
      rw [keysND, List.map_cons, List.nodup_cons] at hnd
      by_cases hq : q.1 = k
      · rw [aerase, if_pos hq, alookup, if_pos hq]
        have hnone : alookup k t = none := by
          by_contra hc
          rcases Option.ne_none_iff_exists'.mp hc with ⟨w, hw⟩
          exact hnd.1 (hq ▸ mem_keys_of_mem (alookup_mem hw))
        rw [aerase_of_none hnone, sumBy]
        simp [Option.map_some]
        ring
      · rw [aerase, if_neg hq, alookup, if_neg hq, sumBy, sumBy, ih hnd.2]
        ring

theorem sumBy_mapVals (f : β → Int) (g : α → β) (l : List (String × α)) :
    sumBy f (mapVals g l) = sumBy (fun a => f (g a)) l := by
  induction l with
  | nil => simp [mapVals, sumBy]
  | cons q t ih =>
      simp only [mapVals, List.map_cons, sumBy] at *
      rw [ih]

theorem sumBy_nonneg {f : α → Int} {l : List (String × α)} (h : ∀ p ∈ l, 0 ≤ f p.2) :
    0 ≤ sumBy f l := by
  induction l with
  | nil => simp [sumBy]
  | cons q t ih =>
      rw [sumBy]
      have h1 := h q (List.mem_cons_self _ _)
      have h2 := ih (fun p hp => h p (List.mem_cons_of_mem _ hp))
      linarith

theorem sumBy_congr {f g : α → Int} {l : List (String × α)}
    (h : ∀ p ∈ l, f p.2 = g p.2) : sumBy f l = sumBy g l := by
  induction l with
  | nil => simp [sumBy]
  | cons q t ih =>
      rw [sumBy, sumBy, h q (List.mem_cons_self _ _),
          ih (fun p hp => h p (List.mem_cons_of_mem _ hp))]

theorem sumBy_le {f g : α → Int} {l : List (String × α)}
    (h : ∀ p ∈ l, f p.2 ≤ g p.2) : sumBy f l ≤ sumBy g l := by
  induction l with
  | nil => simp [sumBy]
  | cons q t ih =>
      rw [sumBy, sumBy]
      have h1 := h q (List.mem_cons_self _ _)
      have h2 := ih (fun p hp => h p (List.mem_cons_of_mem _ hp))
      linarith

/- ── entriesSumFor lemmas ──────────────────────────────────────────── -/

theorem entriesSumFor_append (no : String) (es es' : List Entry) :
    entriesSumFor no (es ++ es') = entriesSumFor no es + entriesSumFor no es' := by
  induction es with
  | nil => simp [entriesSumFor]
  | cons e t ih =>
      rw [List.cons_append, entriesSumFor, entriesSumFor, ih]
      ring

theorem entriesSumFor_purge {no no' : String} (h : no ≠ no') (es : List Entry) :
    entriesSumFor no (purgeOrder no' es) = entriesSumFor no es := by
  induction es with
  | nil => simp [purgeOrder, entriesSumFor]
  | cons e t ih =>
      by_cases he : e.orderNo = some no'
      · rw [purgeOrder, if_pos he, ih, entriesSumFor, contrib,
            if_neg (by rw [he]; exact fun hh => h (Option.some_injective _ hh).symm)]
        ring
      · rw [purgeOrder, if_neg he, entriesSumFor, entriesSumFor, ih]

theorem contrib_renameEntryTech (no oldN newN : String) (e : Entry) :
    contrib no (renameEntryTech oldN newN e) = contrib no e := by
  unfold renameEntryTech contrib
  by_cases h : e.technician = oldN <;> simp [h]

theorem entriesSumFor_map_rename (no oldN newN : String) (es : List Entry) :
    entriesSumFor no (es.map (renameEntryTech oldN newN)) = entriesSumFor no es := by
  induction es with
  | nil => simp [entriesSumFor]
  | cons e t ih =>
      rw [List.map_cons, entriesSumFor, entriesSumFor, ih, contrib_renameEntryTech]

theorem contrib_nonneg {no : String} {e : Entry} (h : 0 < e.supplied) : 0 ≤ contrib no e := by
  unfold contrib
  by_cases hc : e.orderNo = some no <;> simp [hc] <;> linarith

theorem entriesSumFor_nonneg {no : String} {es : List Entry}
    (h : ∀ e ∈ es, 0 < e.supplied) : 0 ≤ entriesSumFor no es := by
  induction es with
  | nil => simp [entriesSumFor]
  | cons e t ih =>
      rw [entriesSumFor]
      have h1 := @contrib_nonneg no e (h e (List.mem_cons_self _ _))
      have h2 := ih (fun e' he' => h e' (List.mem_cons_of_mem _ he'))
      linarith

theorem entriesSumFor_set (no : String) :
    ∀ (es : List Entry) (idx : Nat) (h : idx < es.length) (e' : Entry),
      entriesSumFor no (es.set idx e') + contrib no (es.get ⟨idx, h⟩) =
        entriesSumFor no es + contrib no e' := by
  intro es
  induction es with
  | nil => intro idx h; simp at h
  | cons e t ih =>
      intro idx h e'
      cases idx with
      | zero =>
          simp only [List.set, List.get, entriesSumFor]
          ring
      | succ n =>
          simp only [List.set, List.get, entriesSumFor]
          have := ih n (by simpa using h) e'
          linarith

theorem entriesSumFor_eraseIdx (no : String) :
    ∀ (es : List Entry) (idx : Nat) (h : idx < es.length),
      entriesSumFor no (es.eraseIdx idx) + contrib no (es.get ⟨idx, h⟩) =
        entriesSumFor no es := by
  intro es
  induction es with
  | nil => intro idx h; simp at h
  | cons e t ih =>
      intro idx h
      cases idx with
      | zero =>
          simp only [List.eraseIdx, List.get, entriesSumFor]
          ring
      | succ n =>
          simp only [List.eraseIdx, List.get, entriesSumFor]
          have := ih n (by simpa using h)
          linarith

theorem entriesSumFor_zero_of {no : String} {es : List Entry}
    (h : ∀ e ∈ es, e.orderNo ≠ some no) : entriesSumFor no es = 0 := by
  induction es with
  | nil => simp [entriesSumFor]
  | cons e t ih =>
      rw [entriesSumFor, contrib, if_neg (h e (List.mem_cons_self _ _)),
          ih (fun e' he' => h e' (List.mem_cons_of_mem _ he'))]
      ring

theorem entriesSumFor_ge_contrib {no : String} {es : List Entry}
    (hpos : ∀ e ∈ es, 0 < e.supplied) :
    ∀ (idx : Nat) (h : idx < es.length), contrib no (es.get ⟨idx, h⟩) ≤ entriesSumFor no es := by
  induction es with
  | nil => intro idx h; simp at h
  | cons e t ih =>
      intro idx h
      cases idx with
      | zero =>
          simp only [List.get, entriesSumFor]
          have := @entriesSumFor_nonneg no t (fun e' he' => hpos e' (List.mem_cons_of_mem _ he'))
          linarith
      | succ n =>
          simp only [List.get, entriesSumFor]
          have h1 := ih (fun e' he' => hpos e' (List.mem_cons_of_mem _ he')) n (by simpa using h)
          have h2 := @contrib_nonneg no e (hpos e (List.mem_cons_self _ _))
          linarith

/- ── Generic invariant-propagation helpers ─────────────────────────── -/

theorem forall_vals_aset {P : α → Prop} {l : List (String × α)} {k : String} {v : α}
    (h : ∀ q ∈ l, P q.2) (hv : P v) : ∀ q ∈ aset k v l, P q.2 := by
  intro q hq
  rcases mem_aset hq with rfl | hq'
  · exact hv
  · exact h q hq'

theorem forall_vals_aerase {P : α → Prop} {l : List (String × α)} {k : String}
    (h : ∀ q ∈ l, P q.2) : ∀ q ∈ aerase k l, P q.2 := by
  intro q hq
  exact h q (mem_aerase.mp hq).1

theorem forall_vals_mapVals {P Q : α → Prop} {l : List (String × α)} {g : α → α}
    (h : ∀ q ∈ l, P q.2) (hg : ∀ a, P a → Q (g a)) : ∀ q ∈ mapVals g l, Q q.2 := by
  intro q hq
  rcases mem_mapVals hq with ⟨p, hp, rfl⟩
  exact hg p.2 (h p hp)

theorem ordersInv_setCur {P : Order → Prop} {s : DBState} {r' : Region}
    (h : OrdersInv P s) (hO : ∀ q ∈ r'.orders, P q.2) : OrdersInv P (setCur s r') := by
  intro p hp
  rcases mem_aset hp with rfl | hp'
  · exact hO
  · exact h p hp'

theorem ordersInv_region {P : Order → Prop} {s : DBState}
    (h : OrdersInv P s) (hr : alookup rn s.regions = some r) : ∀ q ∈ r.orders, P q.2 :=
  h (rn, r) (alookup_mem hr)

/-- A field-preserving order rewrite preserves `StatusOK`. -/
theorem statusOK_congr {o o' : Order} (hst : o'.status = o.status)
    (ht : o'.totalLiters = o.totalLiters) (hsup : o'.suppliedTotal = o.suppliedTotal)
    (h : StatusOK o) : StatusOK o' := by
  unfold StatusOK at *
  rw [hst, ht, hsup]
  exact h

theorem posTotal_congr {o o' : Order} (ht : o'.totalLiters = o.totalLiters)
    (h : PosTotal o) : PosTotal o' := by
  unfold PosTotal at *
  rw [ht]
  exact h

/- ── StatusOK of the recomputation in `saveEditEntry` ──────────────── -/

theorem statusOK_reclose (o : Order) (sup : Int) :
    StatusOK { o with suppliedTotal := sup,
                      status := if o.totalLiters ≤ sup then Status.CLOSED
                                else if o.status = Status.CLOSED ∧ sup < o.totalLiters then Status.OPEN
                                else o.status } := by
  unfold StatusOK
  simp only
  by_cases h1 : o.totalLiters ≤ sup
  · simp [h1]
  · rw [if_neg h1]
    by_cases h2 : o.status = Status.CLOSED
    · rw [if_pos ⟨h2, by omega⟩]
      simp [h1]
    · rw [if_neg (fun hc => h2 hc.1)]
      simp [h1, h2]

/- ── StatusInv preservation, operation by operation ────────────────── -/

theorem statusInv_createOrder (s : DBState) (no plate : String) (total : Int) (date : String)
    (hS : StatusInv s) (hpos : 0 < total) : StatusInv (createOrder s no plate total date) := by
  unfold createOrder
  cases h : alookup s.currentRegion s.regions with
  | none => exact hS
  | some r =>
      dsimp only
      by_cases hg : no = "" ∨ (alookup no r.orders).isSome
      · rw [if_pos hg]
        exact hS
      · rw [if_neg hg]
        refine ordersInv_setCur hS (forall_vals_aset (ordersInv_region hS h) ?_)
        unfold StatusOK newOrder
        simp
        omega

theorem statusInv_allocateFuel (s : DBState) (orderKey tech : String) (amt : Int)
    (hS : StatusInv s) : StatusInv (allocateFuel s orderKey tech amt) := by
  unfold allocateFuel
  cases h : alookup s.currentRegion s.regions with
  | none => exact hS
  | some r =>
      dsimp only
      cases ho : alookup orderKey r.orders with
      | none => exact hS
      | some o =>
          dsimp only
          by_cases h1 : tech = "" ∨ amt = 0
          · rw [if_pos h1]; exact hS
          · rw [if_neg h1]
            by_cases h2 : (alookup tech o.allocations).getD 0 ≠ 0
            · rw [if_pos h2]; exact hS
            · rw [if_neg h2]
              by_cases h3 : o.totalLiters < sumVals o.allocations + amt
              · rw [if_pos h3]; exact hS
              · rw [if_neg h3]
                refine ordersInv_setCur hS (forall_vals_aset (ordersInv_region hS h) ?_)
                exact statusOK_congr rfl rfl rfl
                  (ordersInv_region hS h (orderKey, o) (alookup_mem ho))

theorem statusInv_saveAllocEdit (s : DBState) (orderNo tech : String) (newAmt : Int)
    (hS : StatusInv s) : StatusInv (saveAllocEdit s orderNo tech newAmt) := by
  unfold saveAllocEdit
  cases h : alookup s.currentRegion s.regions with
  | none => exact hS
  | some r =>
      dsimp only
      cases ho : alookup orderNo r.orders with
      | none => exact hS
      | some o =>
          dsimp only
          by_cases h1 : newAmt < 0
          · rw [if_pos h1]; exact hS
          · rw [if_neg h1]
            by_cases h3 : o.totalLiters < sumVals (aerase tech o.allocations) + newAmt
            · rw [if_pos h3]; exact hS
            · rw [if_neg h3]
              refine ordersInv_setCur hS (forall_vals_aset (ordersInv_region hS h) ?_)
              exact statusOK_congr rfl rfl rfl
                (ordersInv_region hS h (orderNo, o) (alookup_mem ho))

theorem statusInv_saveOrderDate (s : DBState) (orderNo newDate : String)
    (hS : StatusInv s) : StatusInv (saveOrderDate s orderNo newDate) := by
  unfold saveOrderDate
  cases h : alookup s.currentRegion s.regions with
  | none => exact hS
  | some r =>
      dsimp only
      cases ho : alookup orderNo r.orders with
      | none => exact hS
      | some o =>
          dsimp only
          by_cases h1 : newDate = ""
          · rw [if_pos h1]; exact hS
          · rw [if_neg h1]
            refine ordersInv_setCur hS (forall_vals_aset (ordersInv_region hS h) ?_)
            exact statusOK_congr rfl rfl rfl
              (ordersInv_region hS h (orderNo, o) (alookup_mem ho))

theorem statusInv_saveOverageComment (s : DBState) (orderNo tech comment : String)
    (hS : StatusInv s) : StatusInv (saveOverageComment s orderNo tech comment) := by
  unfold saveOverageComment
  by_cases h0 : comment = ""
  · rw [if_pos h0]; exact hS
  · rw [if_neg h0]
    cases h : alookup s.currentRegion s.regions with
    | none => exact hS
    | some r =>
        dsimp only
        cases ho : alookup orderNo r.orders with
        | none => exact hS
        | some o =>
            dsimp only
            refine ordersInv_setCur hS (forall_vals_aset (ordersInv_region hS h) ?_)
            exact statusOK_congr rfl rfl rfl
              (ordersInv_region hS h (orderNo, o) (alookup_mem ho))

theorem statusInv_deleteOrder (s : DBState) (orderNo : String)
    (hS : StatusInv s) : StatusInv (deleteOrder s orderNo) := by
  unfold deleteOrder
  cases h : alookup s.currentRegion s.regions with
  | none => exact hS
  | some r =>
      dsimp only
      cases ho : alookup orderNo r.orders with
      | none => exact hS
      | some o =>
          dsimp only
          exact ordersInv_setCur hS (forall_vals_aerase (ordersInv_region hS h))

theorem statusInv_confirmClone (s : DBState) (srcNo newNo newDate : String)
    (hS : StatusInv s) (hP : PosInv s) : StatusInv (confirmClone s srcNo newNo newDate) := by
  unfold confirmClone
  cases h : alookup s.currentRegion s.regions with
  | none => exact hS
  | some r =>
      dsimp only
      cases ho : alookup srcNo r.orders with
      | none => exact hS
      | some src =>
          dsimp only
          by_cases h1 : newNo = ""
          · rw [if_pos h1]; exact hS
          · rw [if_neg h1]
            by_cases h2 : (alookup newNo r.orders).isSome
            · rw [if_pos h2]; exact hS
            · rw [if_neg h2]
              refine ordersInv_setCur hS (forall_vals_aset (ordersInv_region hS h) ?_)
              have hps : PosTotal src := ordersInv_region hP h (srcNo, src) (alookup_mem ho)
              unfold StatusOK cloneOrder
              unfold PosTotal at hps
              simp
              omega

theorem statusInv_addRegion (s : DBState) (name : String)
    (hS : StatusInv s) : StatusInv (addRegion s name) := by
  unfold addRegion
  by_cases h : name = "" ∨ (alookup name s.regions).isSome
  · rw [if_pos h]; exact hS
  · rw [if_neg h]
    intro p hp
    rcases mem_aset hp with rfl | hp'
    · intro q hq
      simp [emptyRegion] at hq
    · exact hS p hp'

theorem statusInv_deleteRegion (s : DBState) (name : String)
    (hS : StatusInv s) : StatusInv (deleteRegion s name) := by
  unfold deleteRegion
  by_cases h : s.regions.length ≤ 1
  · rw [if_pos h]; exact hS
  · rw [if_neg h]
    cases hr : alookup name s.regions with
    | none => exact hS
    | some r =>
        dsimp only
        intro p hp
        exact hS p (mem_aerase.mp hp).1

theorem statusInv_addTechnician (s : DBState) (tech plate : String)
    (hS : StatusInv s) : StatusInv (addTechnician s tech plate) := by
  unfold addTechnician
  cases h : alookup s.currentRegion s.regions with
  | none => exact hS
  | some r =>
      dsimp only
      by_cases h1 : tech = "" ∨ plate = ""
      · rw [if_pos h1]; exact hS
      · rw [if_neg h1]
        by_cases h2 : tech ∈ r.technicians
        · rw [if_pos h2]; exact hS
        · rw [if_neg h2]
          refine ordersInv_setCur hS ?_
          intro q hq
          exact ordersInv_region hS h q hq

theorem statusInv_deleteTech (s : DBState) (tech : String)
    (hS : StatusInv s) : StatusInv (deleteTech s tech) := by
  unfold deleteTech
  cases h : alookup s.currentRegion s.regions with
  | none => exact hS
  | some r =>
      dsimp only
      refine ordersInv_setCur hS ?_
      intro q hq
      have hq2 : q ∈ mapVals (fun o => { o with allocations := aerase tech o.allocations }) r.orders := hq
      rcases mem_mapVals hq2 with ⟨p, hp, rfl⟩
      exact statusOK_congr rfl rfl rfl (ordersInv_region hS h p hp)

theorem statusInv_renameRegion (s : DBState) (oldN newN : String)
    (hS : StatusInv s) : StatusInv (renameRegion s oldN newN) := by
  unfold renameRegion
  by_cases h1 : newN = ""
  · rw [if_pos h1]; exact hS
  · rw [if_neg h1]
    by_cases h2 : newN = oldN
    · rw [if_pos h2]; exact hS
    · rw [if_neg h2]
      by_cases h3 : (alookup newN s.regions).isSome
      · rw [if_pos h3]; exact hS
      · rw [if_neg h3]
        cases hr : alookup oldN s.regions with
        | none => exact hS
        | some r =>
            dsimp only
            intro p hp
            rcases mem_aset (mem_aerase.mp hp).1 with rfl | hp'
            · exact hS (oldN, r) (alookup_mem hr)
            · exact hS p hp'

theorem statusInv_renameTech (s : DBState) (oldN newN : String)
    (hS : StatusInv s) : StatusInv (renameTech s oldN newN) := by
  unfold renameTech
  by_cases h1 : newN = ""
  · rw [if_pos h1]; exact hS
  · rw [if_neg h1]
    by_cases h2 : newN = oldN
    · rw [if_pos h2]; exact hS
    · rw [if_neg h2]
      intro p hp
      rcases List.mem_map.mp hp with ⟨q, hq, rfl⟩
      by_cases h3 : oldN ∈ q.2.technicians
      · rw [if_pos h3]
        intro q' hq'
        have hq2 : q' ∈ mapVals
            (fun o => { o with allocations := migrate oldN newN o.allocations,
                               overageComments := migrate oldN newN o.overageComments }) q.2.orders := hq'
        rcases mem_mapVals hq2 with ⟨p', hp', rfl⟩
        exact statusOK_congr rfl rfl rfl (hS q hq p' hp')
      · rw [if_neg h3]
        exact hS q hq

/- ── `saveDaily` and the status invariant ──────────────────────────── -/

/-- During the card loop, closed orders keep supplied ≥ total (the loop
only touches orders that are not closed). -/
def ClosedLe (r : Region) : Prop :=
  ∀ q ∈ r.orders, q.2.status = Status.CLOSED → q.2.totalLiters ≤ q.2.suppliedTotal

theorem ensureDate_orders (date : String) (r : Region) : (ensureDate date r).orders = r.orders := by
  unfold ensureDate
  split <;> rfl

theorem closedLe_aset_push {r : Region} {no : String} {o' : Order} {e : Entry} {date : String}
    (h : ClosedLe r) (hst : o'.status ≠ Status.CLOSED) :
    ClosedLe (pushEntry date e { r with orders := aset no o' r.orders }) := by
  intro q hq
  have hq2 : q ∈ aset no o' r.orders := hq
  rcases mem_aset hq2 with rfl | hq'
  · intro hc
    exact absurd hc hst
  · exact h q hq'

theorem closedLe_procCard (date : String) (acc : Region × Nat × Nat) (c : Card)
    (h : ClosedLe acc.1) : ClosedLe (procCard date acc c).1 := by
  unfold procCard
  split
  · exact h
  · split
    · split
      · exact h
      · exact h
    · split
      · exact h
      · split
        · exact h
        · split
          · exact h
          · split
            · exact h
            · rename_i hcl
              exact closedLe_aset_push h hcl

theorem closedLe_foldl (date : String) :
    ∀ (cards : List Card) (acc : Region × Nat × Nat), ClosedLe acc.1 →
      ClosedLe (List.foldl (procCard date) acc cards).1 := by
  intro cards
  induction cards with
  | nil => intro acc h; exact h
  | cons c t ih =>
      intro acc h
      exact ih _ (closedLe_procCard date acc c h)

theorem statusOK_closeIf {o : Order}
    (h : o.status = Status.CLOSED → o.totalLiters ≤ o.suppliedTotal) : StatusOK (closeIf o) := by
  unfold closeIf StatusOK
  by_cases h1 : o.totalLiters ≤ o.suppliedTotal
  · rw [if_pos h1]
    simp [h1]
  · rw [if_neg h1]
    constructor
    · intro hc
      exact absurd (h hc) h1
    · intro hc
      exact absurd hc h1

theorem statusInv_saveDaily (s : DBState) (date : String) (cards : List Card)
    (hS : StatusInv s) : StatusInv (saveDaily s date cards) := by
  unfold saveDaily saveDailyRes
  by_cases h0 : date = ""
  · rw [if_pos h0]; exact hS
  · rw [if_neg h0]
    cases h : alookup s.currentRegion s.regions with
    | none => exact hS
    | some r =>
        dsimp only
        by_cases hc : cards = []
        · rw [if_pos hc]
          refine ordersInv_setCur hS ?_
          intro q hq
          rw [ensureDate_orders] at hq
          exact ordersInv_region hS h q hq
        · rw [if_neg hc]
          have hbase : ClosedLe (ensureDate date r) := by
            intro q hq hcl
            rw [ensureDate_orders] at hq
            exact (ordersInv_region hS h q hq).mp hcl
          have hfold := closedLe_foldl date cards (ensureDate date r, 0, 0) hbase
          refine ordersInv_setCur hS ?_
          intro q hq
          have hq2 : q ∈ mapVals closeIf (List.foldl (procCard date) (ensureDate date r, 0, 0) cards).1.orders := hq
          rcases mem_mapVals hq2 with ⟨p, hp, rfl⟩
          exact statusOK_closeIf (hfold p hp)

theorem statusInv_saveEditEntry (s : DBState) (date : String) (idx : Nat) (newSupply : Int)
    (newComment : String) (hS : StatusInv s) :
    StatusInv (saveEditEntry s date idx newSupply newComment) := by
  unfold saveEditEntry
  cases h : alookup s.currentRegion s.regions with
  | none => exact hS
  | some r =>
      dsimp only
      cases hd : alookup date r.dailyLog with
      | none => exact hS
      | some entries =>
          dsimp only
          split
          · rename_i hlen
            by_cases h1 : newSupply ≤ 0
            · rw [if_pos h1]; exact hS
            · rw [if_neg h1]
              by_cases h2 : (entries.get ⟨idx, hlen⟩).unallocated = true ∧ newComment = ""
              · rw [if_pos h2]; exact hS
              · rw [if_neg h2]
                refine ordersInv_setCur hS ?_
                split
                · split
                  · split
                    · intro q hq
                      refine forall_vals_aset (ordersInv_region hS h) ?_ q hq
                      exact statusOK_reclose _ _
                    · intro q hq
                      exact ordersInv_region hS h q hq
                  · intro q hq
                    exact ordersInv_region hS h q hq
                · intro q hq
                  exact ordersInv_region hS h q hq
          · exact hS

theorem statusOK_delentry {o : Order} (hS : StatusOK o) (hP : PosTotal o) {d : Int} (hd : 0 < d) :
    StatusOK { o with suppliedTotal := max 0 (o.suppliedTotal - d),
                      status := if o.status = Status.CLOSED ∧ max 0 (o.suppliedTotal - d) < o.totalLiters
                                then Status.OPEN else o.status } := by
  unfold StatusOK PosTotal at *
  simp only
  by_cases h1 : o.status = Status.CLOSED
  · by_cases h2 : max 0 (o.suppliedTotal - d) < o.totalLiters
    · rw [if_pos ⟨h1, h2⟩]
      exact iff_of_false (by simp) (not_le.mpr h2)
    · rw [if_neg (fun hc => h2 hc.2)]
      exact iff_of_true h1 (not_lt.mp h2)
  · rw [if_neg (fun hc => h1 hc.1)]
    have hlt : o.suppliedTotal < o.totalLiters := by
      rcases lt_or_le o.suppliedTotal o.totalLiters with hh | hh
      · exact hh
      · exact absurd (hS.mpr hh) h1
    have hm : max 0 (o.suppliedTotal - d) < o.totalLiters := max_lt hP (by omega)
    exact iff_of_false h1 (not_le.mpr hm)

theorem statusInv_deleteDailyEntry (s : DBState) (date : String) (idx : Nat)
    (hS : StatusInv s) (hE : EntInv s) (hP : PosInv s) :
    StatusInv (deleteDailyEntry s date idx) := by
  unfold deleteDailyEntry
  cases h : alookup s.currentRegion s.regions with
  | none => exact hS
  | some r =>
      dsimp only
      cases hd : alookup date r.dailyLog with
      | none => exact hS
      | some entries =>
          dsimp only
          split
          · rename_i hlen
            have hent : EntryOK (entries.get ⟨idx, hlen⟩) :=
              hE _ (alookup_mem h) (date, entries) (alookup_mem hd) _ (entries.get_mem _ _)
            refine ordersInv_setCur hS ?_
            split
            · split
              · split
                · rename_i o ho
                  intro q hq
                  refine forall_vals_aset (ordersInv_region hS h) ?_ q hq
                  exact statusOK_delentry
                    (ordersInv_region hS h (_, o) (alookup_mem ho))
                    (ordersInv_region hP h (_, o) (alookup_mem ho)) hent.1
                · intro q hq
                  exact ordersInv_region hS h q hq
              · intro q hq
                exact ordersInv_region hS h q hq
            · intro q hq
              exact ordersInv_region hS h q hq
          · exact hS

/- ── Claim C1 ──────────────────────────────────────────────────────── -/

/-- C1 (counterexample): the claim as stated is false on the code.
`createOrder` performs no validation of `totalLiters`; creating an order
with `totalLiters = 0` (the value of an empty numeric input) from the
default store yields an order whose status is OPEN even though
`suppliedTotal (= 0) ≥ totalLiters (= 0)`, so after the mutating
operation `createOrder` the invariant
`status = CLOSED ↔ suppliedTotal ≥ totalLiters` does not hold. -/
theorem claim1_counterexample :
    Good initState ∧
      ¬ StatusInv (applyOp (Op.createOrder "X" "P" 0 "2026-01-01") initState) := by
  decide

/-- C1 (amended): for every store satisfying the structural invariants
and every mutating operation — with order creation restricted to a
positive `totalLiters`, which the UI intends but the source does not
check — the resulting store satisfies
`status = CLOSED ↔ suppliedTotal ≥ totalLiters` for every order of
every region. -/
theorem claim1_status_invariant (op : Op) (s : DBState) (hG : Good s) (hop : CreatePos op) :
    StatusInv (applyOp op s) := by
  obtain ⟨hWF, hPos, hStat, hEnt, hRef, hSupp, hAlloc, hNN⟩ := hG
  cases op with
  | createOrder no plate total date => exact statusInv_createOrder s no plate total date hStat hop
  | allocateFuel orderKey tech amt => exact statusInv_allocateFuel s orderKey tech amt hStat
  | saveAllocEdit orderNo tech newAmt => exact statusInv_saveAllocEdit s orderNo tech newAmt hStat
  | saveOrderDate orderNo newDate => exact statusInv_saveOrderDate s orderNo newDate hStat
  | saveOverageComment orderNo tech comment =>
      exact statusInv_saveOverageComment s orderNo tech comment hStat
  | deleteOrder orderNo => exact statusInv_deleteOrder s orderNo hStat
  | confirmClone srcNo newNo newDate => exact statusInv_confirmClone s srcNo newNo newDate hStat hPos
  | saveDaily date cards => exact statusInv_saveDaily s date cards hStat
  | saveEditEntry date idx newSupply newComment =>
      exact statusInv_saveEditEntry s date idx newSupply newComment hStat
  | deleteDailyEntry date idx => exact statusInv_deleteDailyEntry s date idx hStat hEnt hPos
  | addRegion name => exact statusInv_addRegion s name hStat
  | deleteRegion name => exact statusInv_deleteRegion s name hStat
  | addTechnician tech plate => exact statusInv_addTechnician s tech plate hStat
  | deleteTech tech => exact statusInv_deleteTech s tech hStat
  | renameRegion oldN newN => exact statusInv_renameRegion s oldN newN hStat
  | renameTech oldN newN => exact statusInv_renameTech s oldN newN hStat

/-- C1 (witness): the amended theorem applied to the populated store
`wState` and a concrete order creation with a positive total. -/
theorem claim1_witness :
    Good wState ∧ StatusInv (applyOp (Op.createOrder "O2" "P2" 40 "2026-01-02") wState) :=
  ⟨by decide, claim1_status_invariant (Op.createOrder "O2" "P2" 40 "2026-01-02") wState
    (by decide) (show (0 : Int) < 40 by decide)⟩

/- ── Allocation-sum lemmas ─────────────────────────────────────────── -/

theorem allocLe_congr {o o' : Order} (ha : o'.allocations = o.allocations)
    (ht : o'.totalLiters = o.totalLiters) (h : AllocLe o) : AllocLe o' := by
  unfold AllocLe at *
  rw [ha, ht]
  exact h

theorem sumVals_aerase_le {k : String} {l : List (String × Int)} (hnd : keysND l)
    (hnn : ∀ p ∈ l, 0 ≤ p.2) : sumVals (aerase k l) ≤ sumVals l := by
  have h := sumBy_split (fun v => v) k hnd
  cases hk : alookup k l with
  | none => rw [aerase_of_none hk]
  | some v =>
      have hv : 0 ≤ v := hnn (k, v) (alookup_mem hk)
      rw [hk] at h
      simp at h
      unfold sumVals
      omega

theorem sumVals_migrate_le {oldN newN : String} {l : List (String × Int)} (hnd : keysND l)
    (hnn : ∀ p ∈ l, 0 ≤ p.2) (hne : oldN ≠ newN) : sumVals (migrate oldN newN l) ≤ sumVals l := by
  unfold migrate
  cases hk : alookup oldN l with
  | none => exact le_refl _
  | some v =>
      dsimp only
      have h1 : sumVals (aset newN v l) = sumVals (aerase newN l) + v :=
        sumBy_aset (fun v => v) newN v hnd
      have hnd1 : keysND (aset newN v l) := keysND_aset newN v hnd
      have h2 := sumBy_split (fun v => v) oldN hnd1
      rw [alookup_aset_ne hne, hk] at h2
      simp at h2
      have h3 : sumVals (aerase newN l) ≤ sumVals l := sumVals_aerase_le hnd hnn
      unfold sumVals at *
      omega

/-- Well-formedness data of the current region's order. -/
theorem wf_region {s : DBState} (hWF : WF s) (h : alookup rn s.regions = some r) :
    keysND r.orders ∧ keysND r.dailyLog ∧ keysND r.technicianPlates ∧
      ∀ q ∈ r.orders, keysND q.2.allocations ∧ keysND q.2.overageComments :=
  hWF.2 (rn, r) (alookup_mem h)

/- ── AllocInv preservation, operation by operation ─────────────────── -/

theorem allocInv_createOrder (s : DBState) (no plate : String) (total : Int) (date : String)
    (hA : AllocInv s) (hnn : 0 ≤ total) : AllocInv (createOrder s no plate total date) := by
  unfold createOrder
  cases h : alookup s.currentRegion s.regions with
  | none => exact hA
  | some r =>
      dsimp only
      by_cases hg : no = "" ∨ (alookup no r.orders).isSome
      · rw [if_pos hg]
        exact hA
      · rw [if_neg hg]
        refine ordersInv_setCur hA (forall_vals_aset (ordersInv_region hA h) ?_)
        unfold AllocLe newOrder sumVals sumBy
        simpa using hnn

theorem allocInv_allocateFuel (s : DBState) (orderKey tech : String) (amt : Int)
    (hA : AllocInv s) (hWF : WF s) : AllocInv (allocateFuel s orderKey tech amt) := by
  unfold allocateFuel
  cases h : alookup s.currentRegion s.regions with
  | none => exact hA
  | some r =>
      dsimp only
      cases ho : alookup orderKey r.orders with
      | none => exact hA
      | some o =>
          dsimp only
          by_cases h1 : tech = "" ∨ amt = 0
          · rw [if_pos h1]; exact hA
          · rw [if_neg h1]
            by_cases h2 : (alookup tech o.allocations).getD 0 ≠ 0
            · rw [if_pos h2]; exact hA
            · rw [if_neg h2]
              by_cases h3 : o.totalLiters < sumVals o.allocations + amt
              · rw [if_pos h3]; exact hA
              · rw [if_neg h3]
                refine ordersInv_setCur hA (forall_vals_aset (ordersInv_region hA h) ?_)
                have hnd : keysND o.allocations :=
                  ((wf_region hWF h).2.2.2 (orderKey, o) (alookup_mem ho)).1
                unfold AllocLe
                have hset : sumVals (aset tech amt o.allocations) =
                    sumVals (aerase tech o.allocations) + amt := sumBy_aset (fun v => v) tech amt hnd
                have hsplit := sumBy_split (fun v => v) tech hnd
                have hz : ((alookup tech o.allocations).map (fun v => v)).getD 0 = 0 := by
                  push_neg at h2
                  cases hk : alookup tech o.allocations with
                  | none => simp
                  | some v => rw [hk] at h2; simpa using h2
                rw [hz] at hsplit
                unfold sumVals at *
                simp only
                omega

theorem allocInv_saveAllocEdit (s : DBState) (orderNo tech : String) (newAmt : Int)
    (hA : AllocInv s) (hWF : WF s) : AllocInv (saveAllocEdit s orderNo tech newAmt) := by
  unfold saveAllocEdit
  cases h : alookup s.currentRegion s.regions with
  | none => exact hA
  | some r =>
      dsimp only
      cases ho : alookup orderNo r.orders with
      | none => exact hA
      | some o =>
          dsimp only
          by_cases h1 : newAmt < 0
          · rw [if_pos h1]; exact hA
          · rw [if_neg h1]
            by_cases h3 : o.totalLiters < sumVals (aerase tech o.allocations) + newAmt
            · rw [if_pos h3]; exact hA
            · rw [if_neg h3]
              refine ordersInv_setCur hA (forall_vals_aset (ordersInv_region hA h) ?_)
              have hnd : keysND o.allocations :=
                ((wf_region hWF h).2.2.2 (orderNo, o) (alookup_mem ho)).1
              unfold AllocLe
              have hset : sumVals (aset tech newAmt o.allocations) =
                  sumVals (aerase tech o.allocations) + newAmt := sumBy_aset (fun v => v) tech newAmt hnd
              unfold sumVals at *
              simp only
              omega

theorem allocInv_saveOrderDate (s : DBState) (orderNo newDate : String)
    (hA : AllocInv s) : AllocInv (saveOrderDate s orderNo newDate) := by
  unfold saveOrderDate
  cases h : alookup s.currentRegion s.regions with
  | none => exact hA
  | some r =>
      dsimp only
      cases ho : alookup orderNo r.orders with
      | none => exact hA
      | some o =>
          dsimp only
          by_cases h1 : newDate = ""
          · rw [if_pos h1]; exact hA
          · rw [if_neg h1]
            refine ordersInv_setCur hA (forall_vals_aset (ordersInv_region hA h) ?_)
            exact allocLe_congr rfl rfl (ordersInv_region hA h (orderNo, o) (alookup_mem ho))

theorem allocInv_saveOverageComment (s : DBState) (orderNo tech comment : String)
    (hA : AllocInv s) : AllocInv (saveOverageComment s orderNo tech comment) := by
  unfold saveOverageComment
  by_cases h0 : comment = ""
  · rw [if_pos h0]; exact hA
  · rw [if_neg h0]
    cases h : alookup s.currentRegion s.regions with
    | none => exact hA
    | some r =>
        dsimp only
        cases ho : alookup orderNo r.orders with
        | none => exact hA
        | some o =>
            dsimp only
            refine ordersInv_setCur hA (forall_vals_aset (ordersInv_region hA h) ?_)
            exact allocLe_congr rfl rfl (ordersInv_region hA h (orderNo, o) (alookup_mem ho))

theorem allocInv_deleteOrder (s : DBState) (orderNo : String)
    (hA : AllocInv s) : AllocInv (deleteOrder s orderNo) := by
  unfold deleteOrder
  cases h : alookup s.currentRegion s.regions with
  | none => exact hA
  | some r =>
      dsimp only
      cases ho : alookup orderNo r.orders with
      | none => exact hA
      | some o =>
          dsimp only
          exact ordersInv_setCur hA (forall_vals_aerase (ordersInv_region hA h))

theorem allocInv_confirmClone (s : DBState) (srcNo newNo newDate : String)
    (hA : AllocInv s) : AllocInv (confirmClone s srcNo newNo newDate) := by
  unfold confirmClone
  cases h : alookup s.currentRegion s.regions with
  | none => exact hA
  | some r =>
      dsimp only
      cases ho : alookup srcNo r.orders with
      | none => exact hA
      | some src =>
          dsimp only
          by_cases h1 : newNo = ""
          · rw [if_pos h1]; exact hA
          · rw [if_neg h1]
            by_cases h2 : (alookup newNo r.orders).isSome
            · rw [if_pos h2]; exact hA
            · rw [if_neg h2]
              refine ordersInv_setCur hA (forall_vals_aset (ordersInv_region hA h) ?_)
              exact allocLe_congr rfl rfl (ordersInv_region hA h (srcNo, src) (alookup_mem ho))

theorem allocInv_addRegion (s : DBState) (name : String)
    (hA : AllocInv s) : AllocInv (addRegion s name) := by
  unfold addRegion
  by_cases h : name = "" ∨ (alookup name s.regions).isSome
  · rw [if_pos h]; exact hA
  · rw [if_neg h]
    intro p hp
    rcases mem_aset hp with rfl | hp'
    · intro q hq
      simp [emptyRegion] at hq
    · exact hA p hp'

theorem allocInv_deleteRegion (s : DBState) (name : String)
    (hA : AllocInv s) : AllocInv (deleteRegion s name) := by
  unfold deleteRegion
  by_cases h : s.regions.length ≤ 1
  · rw [if_pos h]; exact hA
  · rw [if_neg h]
    cases hr : alookup name s.regions with
    | none => exact hA
    | some r =>
        dsimp only
        intro p hp
        exact hA p (mem_aerase.mp hp).1

theorem allocInv_addTechnician (s : DBState) (tech plate : String)
    (hA : AllocInv s) : AllocInv (addTechnician s tech plate) := by
  unfold addTechnician
  cases h : alookup s.currentRegion s.regions with
  | none => exact hA
  | some r =>
      dsimp only
      by_cases h1 : tech = "" ∨ plate = ""
      · rw [if_pos h1]; exact hA
      · rw [if_neg h1]
        by_cases h2 : tech ∈ r.technicians
        · rw [if_pos h2]; exact hA
        · rw [if_neg h2]
          refine ordersInv_setCur hA ?_
          intro q hq
          exact ordersInv_region hA h q hq

theorem allocInv_deleteTech (s : DBState) (tech : String)
    (hA : AllocInv s) (hWF : WF s) (hNN : AllocNNInv s) : AllocInv (deleteTech s tech) := by
  unfold deleteTech
  cases h : alookup s.currentRegion s.regions with
  | none => exact hA
  | some r =>
      dsimp only
      refine ordersInv_setCur hA ?_
      intro q hq
      have hq2 : q ∈ mapVals (fun o => { o with allocations := aerase tech o.allocations }) r.orders := hq
      rcases mem_mapVals hq2 with ⟨p, hp, rfl⟩
      have hnd : keysND p.2.allocations := ((wf_region hWF h).2.2.2 p hp).1
      have hle : AllocLe p.2 := ordersInv_region hA h p hp
      have hnn : ∀ a ∈ p.2.allocations, 0 ≤ a.2 := ordersInv_region hNN h p hp
      unfold AllocLe at *
      have := sumVals_aerase_le (k := tech) hnd hnn
      simp only
      omega

theorem allocInv_renameRegion (s : DBState) (oldN newN : String)
    (hA : AllocInv s) : AllocInv (renameRegion s oldN newN) := by
  unfold renameRegion
  by_cases h1 : newN = ""
  · rw [if_pos h1]; exact hA
  · rw [if_neg h1]
    by_cases h2 : newN = oldN
    · rw [if_pos h2]; exact hA
    · rw [if_neg h2]
      by_cases h3 : (alookup newN s.regions).isSome
      · rw [if_pos h3]; exact hA
      · rw [if_neg h3]
        cases hr : alookup oldN s.regions with
        | none => exact hA
        | some r =>
            dsimp only
            intro p hp
            rcases mem_aset (mem_aerase.mp hp).1 with rfl | hp'
            · exact hA (oldN, r) (alookup_mem hr)
            · exact hA p hp'

theorem allocInv_renameTech (s : DBState) (oldN newN : String)
    (hA : AllocInv s) (hWF : WF s) (hNN : AllocNNInv s) : AllocInv (renameTech s oldN newN) := by
  unfold renameTech
  by_cases h1 : newN = ""
  · rw [if_pos h1]; exact hA
  · rw [if_neg h1]
    by_cases h2 : newN = oldN
    · rw [if_pos h2]; exact hA
    · rw [if_neg h2]
      intro p hp
      rcases List.mem_map.mp hp with ⟨q, hq, rfl⟩
      by_cases h3 : oldN ∈ q.2.technicians
      · rw [if_pos h3]
        intro q' hq'
        have hq2 : q' ∈ mapVals
            (fun o => { o with allocations := migrate oldN newN o.allocations,
                               overageComments := migrate oldN newN o.overageComments }) q.2.orders := hq'
        rcases mem_mapVals hq2 with ⟨p', hp', rfl⟩
        have hnd : keysND p'.2.allocations := ((hWF.2 q hq).2.2.2 p' hp').1
        have hle : AllocLe p'.2 := hA q hq p' hp'
        have hnn : ∀ a ∈ p'.2.allocations, 0 ≤ a.2 := hNN q hq p' hp'
        unfold AllocLe at *
        have := @sumVals_migrate_le oldN newN _ hnd hnn (fun hh => h2 hh.symm)
        simp only
        omega
      · rw [if_neg h3]
        exact hA q hq

theorem allocLeR_procCard (date : String) (acc : Region × Nat × Nat) (c : Card)
    (h : ∀ q ∈ acc.1.orders, AllocLe q.2) :
    ∀ q ∈ (procCard date acc c).1.orders, AllocLe q.2 := by
  unfold procCard
  split
  · exact h
  · split
    · split
      · exact h
      · exact h
    · split
      · exact h
      · split
        · exact h
        · split
          · exact h
          · split
            · exact h
            · rename_i o ho hcl
              intro q hq
              refine forall_vals_aset h ?_ q hq
              exact allocLe_congr rfl rfl (h (_, o) (alookup_mem ho))

theorem allocLeR_foldl (date : String) :
    ∀ (cards : List Card) (acc : Region × Nat × Nat),
      (∀ q ∈ acc.1.orders, AllocLe q.2) →
      ∀ q ∈ (List.foldl (procCard date) acc cards).1.orders, AllocLe q.2 := by
  intro cards
  induction cards with
  | nil => intro acc h; exact h
  | cons c t ih =>
      intro acc h
      exact ih _ (allocLeR_procCard date acc c h)

theorem allocInv_saveDaily (s : DBState) (date : String) (cards : List Card)
    (hA : AllocInv s) : AllocInv (saveDaily s date cards) := by
  unfold saveDaily saveDailyRes
  by_cases h0 : date = ""
  · rw [if_pos h0]; exact hA
  · rw [if_neg h0]
    cases h : alookup s.currentRegion s.regions with
    | none => exact hA
    | some r =>
        dsimp only
        by_cases hc : cards = []
        · rw [if_pos hc]
          refine ordersInv_setCur hA ?_
          intro q hq
          rw [ensureDate_orders] at hq
          exact ordersInv_region hA h q hq
        · rw [if_neg hc]
          have hbase : ∀ q ∈ (ensureDate date r).orders, AllocLe q.2 := by
            intro q hq
            rw [ensureDate_orders] at hq
            exact ordersInv_region hA h q hq
          have hfold := allocLeR_foldl date cards (ensureDate date r, 0, 0) hbase
          refine ordersInv_setCur hA ?_
          intro q hq
          have hq2 : q ∈ mapVals closeIf (List.foldl (procCard date) (ensureDate date r, 0, 0) cards).1.orders := hq
          rcases mem_mapVals hq2 with ⟨p, hp, rfl⟩
          refine allocLe_congr ?_ ?_ (hfold p hp) <;> unfold closeIf <;> split <;> rfl

theorem allocInv_saveEditEntry (s : DBState) (date : String) (idx : Nat) (newSupply : Int)
    (newComment : String) (hA : AllocInv s) :
    AllocInv (saveEditEntry s date idx newSupply newComment) := by
  unfold saveEditEntry
  cases h : alookup s.currentRegion s.regions with
  | none => exact hA
  | some r =>
      dsimp only
      cases hd : alookup date r.dailyLog with
      | none => exact hA
      | some entries =>
          dsimp only
          split
          · rename_i hlen
            by_cases h1 : newSupply ≤ 0
            · rw [if_pos h1]; exact hA
            · rw [if_neg h1]
              by_cases h2 : (entries.get ⟨idx, hlen⟩).unallocated = true ∧ newComment = ""
              · rw [if_pos h2]; exact hA
              · rw [if_neg h2]
                refine ordersInv_setCur hA ?_
                split
                · split
                  · split
                    · rename_i o ho
                      intro q hq
                      refine forall_vals_aset (ordersInv_region hA h) ?_ q hq
                      exact allocLe_congr rfl rfl (ordersInv_region hA h (_, o) (alookup_mem ho))
                    · intro q hq
                      exact ordersInv_region hA h q hq
                  · intro q hq
                    exact ordersInv_region hA h q hq
                · intro q hq
                  exact ordersInv_region hA h q hq
          · exact hA

theorem allocInv_deleteDailyEntry (s : DBState) (date : String) (idx : Nat)
    (hA : AllocInv s) : AllocInv (deleteDailyEntry s date idx) := by
  unfold deleteDailyEntry
  cases h : alookup s.currentRegion s.regions with
  | none => exact hA
  | some r =>
      dsimp only
      cases hd : alookup date r.dailyLog with
      | none => exact hA
      | some entries =>
          dsimp only
          split
          · rename_i hlen
            refine ordersInv_setCur hA ?_
            split
            · split
              · split
                · rename_i o ho
                  intro q hq
                  refine forall_vals_aset (ordersInv_region hA h) ?_ q hq
                  exact allocLe_congr rfl rfl (ordersInv_region hA h (_, o) (alookup_mem ho))
                · intro q hq
                  exact ordersInv_region hA h q hq
              · intro q hq
                exact ordersInv_region hA h q hq
            · intro q hq
              exact ordersInv_region hA h q hq
          · exact hA

/- ── Claim C3 ──────────────────────────────────────────────────────── -/

/-- C3 (counterexample): the claim as stated is false on the code.
`createOrder` performs no validation of `totalLiters`; creating an order
with `totalLiters = -1` from the default store yields an order whose
allocation sum (0, empty map) exceeds its total litres, so after the
mutating operation `createOrder` the invariant
`sum(allocations) ≤ totalLiters` does not hold. -/
theorem claim3_counterexample :
    Good initState ∧
      ¬ AllocInv (applyOp (Op.createOrder "X" "P" (-1) "2026-01-01") initState) := by
  decide

/-- C3 (amended): for every store satisfying the structural invariants
(in particular: existing allocation amounts are non-negative) and every
mutating operation — with order creation restricted to a non-negative
`totalLiters` and fuel allocation to non-negative amounts, neither of
which the source checks — the resulting store satisfies
`sum(allocations.values()) ≤ totalLiters` for every order; in
particular this holds after `allocateFuel` and after `saveAllocEdit`. -/
theorem claim3_alloc_invariant (op : Op) (s : DBState) (hG : Good s) (hop : CreateNN op) :
    AllocInv (applyOp op s) := by
  obtain ⟨hWF, hPos, hStat, hEnt, hRef, hSupp, hAlloc, hNN⟩ := hG
  cases op with
  | createOrder no plate total date => exact allocInv_createOrder s no plate total date hAlloc hop
  | allocateFuel orderKey tech amt => exact allocInv_allocateFuel s orderKey tech amt hAlloc hWF
  | saveAllocEdit orderNo tech newAmt => exact allocInv_saveAllocEdit s orderNo tech newAmt hAlloc hWF
  | saveOrderDate orderNo newDate => exact allocInv_saveOrderDate s orderNo newDate hAlloc
  | saveOverageComment orderNo tech comment =>
      exact allocInv_saveOverageComment s orderNo tech comment hAlloc
  | deleteOrder orderNo => exact allocInv_deleteOrder s orderNo hAlloc
  | confirmClone srcNo newNo newDate => exact allocInv_confirmClone s srcNo newNo newDate hAlloc
  | saveDaily date cards => exact allocInv_saveDaily s date cards hAlloc
  | saveEditEntry date idx newSupply newComment =>
      exact allocInv_saveEditEntry s date idx newSupply newComment hAlloc
  | deleteDailyEntry date idx => exact allocInv_deleteDailyEntry s date idx hAlloc
  | addRegion name => exact allocInv_addRegion s name hAlloc
  | deleteRegion name => exact allocInv_deleteRegion s name hAlloc
  | addTechnician tech plate => exact allocInv_addTechnician s tech plate hAlloc
  | deleteTech tech => exact allocInv_deleteTech s tech hAlloc hWF hNN
  | renameRegion oldN newN => exact allocInv_renameRegion s oldN newN hAlloc
  | renameTech oldN newN => exact allocInv_renameTech s oldN newN hAlloc hWF hNN

/-- C3 (witness): the amended theorem applied to the populated store
`wState` and a concrete allocation edit. -/
theorem claim3_witness :
    Good wState ∧ AllocInv (applyOp (Op.saveAllocEdit "O1" "A" 70) wState) :=
  ⟨by decide, claim3_alloc_invariant (Op.saveAllocEdit "O1" "A" 70) wState (by decide) trivial⟩

/- ── suppliedSum lemmas ────────────────────────────────────────────── -/

theorem entriesSumFor_singleton (no : String) (e : Entry) :
    entriesSumFor no [e] = contrib no e := by
  rw [entriesSumFor, entriesSumFor]
  ring

theorem suppliedSum_push {r : Region} (hnd : keysND r.dailyLog) (date : String) (e : Entry)
    (no : String) : suppliedSum no (pushEntry date e r) = suppliedSum no r + contrib no e := by
  unfold suppliedSum pushEntry
  show sumBy _ (aset date _ r.dailyLog) = _
  rw [sumBy_aset _ _ _ hnd]
  cases hk : alookup date r.dailyLog with
  | none =>
      simp only [Option.getD_none, List.nil_append]
      rw [aerase_of_none hk, entriesSumFor_singleton]
  | some esd =>
      simp only [Option.getD_some]
      rw [entriesSumFor_append, entriesSumFor_singleton]
      have h2 := sumBy_split (entriesSumFor no) date hnd
      rw [hk] at h2
      simp at h2
      omega

theorem suppliedSum_aset_log {r : Region} (hnd : keysND r.dailyLog) {date : String}
    {entries : List Entry} (hd : alookup date r.dailyLog = some entries) (es' : List Entry)
    (no : String) :
    suppliedSum no { r with dailyLog := aset date es' r.dailyLog } =
      suppliedSum no r - entriesSumFor no entries + entriesSumFor no es' := by
  unfold suppliedSum
  show sumBy _ (aset date es' r.dailyLog) = _
  rw [sumBy_aset _ _ _ hnd]
  have h2 := sumBy_split (entriesSumFor no) date hnd
  rw [hd] at h2
  simp at h2
  omega

theorem suppliedSum_aerase_log {r : Region} (hnd : keysND r.dailyLog) {date : String}
    {entries : List Entry} (hd : alookup date r.dailyLog = some entries) (no : String) :
    suppliedSum no { r with dailyLog := aerase date r.dailyLog } =
      suppliedSum no r - entriesSumFor no entries := by
  unfold suppliedSum
  show sumBy _ (aerase date r.dailyLog) = _
  have h2 := sumBy_split (entriesSumFor no) date hnd
  rw [hd] at h2
  simp at h2
  omega

theorem suppliedSum_set_entry {r : Region} (hnd : keysND r.dailyLog) {date : String}
    {entries : List Entry} (hd : alookup date r.dailyLog = some entries) {idx : Nat}
    (hlen : idx < entries.length) (e' : Entry) (no : String) :
    suppliedSum no { r with dailyLog := aset date (entries.set idx e') r.dailyLog } =
      suppliedSum no r + contrib no e' - contrib no (entries.get ⟨idx, hlen⟩) := by
  rw [suppliedSum_aset_log hnd hd]
  have := entriesSumFor_set no entries idx hlen e'
  omega

theorem suppliedSum_ge_entry {r : Region} (hnd : keysND r.dailyLog) (hE : EntInvR r)
    {date : String} {entries : List Entry} (hd : alookup date r.dailyLog = some entries)
    {idx : Nat} (hlen : idx < entries.length) (no : String) :
    contrib no (entries.get ⟨idx, hlen⟩) ≤ suppliedSum no r := by
  have h2 := sumBy_split (entriesSumFor no) date hnd
  rw [hd] at h2
  simp at h2
  have hge : contrib no (entries.get ⟨idx, hlen⟩) ≤ entriesSumFor no entries :=
    entriesSumFor_ge_contrib (fun e he => (hE (date, entries) (alookup_mem hd) e he).1) idx hlen
  have hnn : 0 ≤ sumBy (entriesSumFor no) (aerase date r.dailyLog) :=
    sumBy_nonneg (fun p hp =>
      entriesSumFor_nonneg (fun e he => (hE p (mem_aerase.mp hp).1 e he).1))
  unfold suppliedSum
  omega

theorem sumBy_zero {f : α → Int} {l : List (String × α)} (h : ∀ p ∈ l, f p.2 = 0) :
    sumBy f l = 0 := by
  induction l with
  | nil => rfl
  | cons q t ih =>
      rw [sumBy, h q (List.mem_cons_self _ _), ih (fun p hp => h p (List.mem_cons_of_mem _ hp))]
      ring

/-- No daily entry references an order key that is absent from the
region's order map (consequence of `EntInvR` and `RefInvR`). -/
theorem suppliedSum_zero_of_fresh {r : Region} (hE : EntInvR r) (hRef : RefInvR r)
    {no : String} (hfresh : alookup no r.orders = none) : suppliedSum no r = 0 := by
  unfold suppliedSum
  refine sumBy_zero (fun p hp => entriesSumFor_zero_of (fun e he hx => ?_))
  obtain ⟨hpos, hun, hal⟩ := hE p hp e he
  cases hu : e.unallocated with
  | true =>
      rw [hun hu] at hx
      cases hx
  | false =>
      have := hRef p hp e he hu
      rw [hx] at this
      simp at this
      rw [hfresh] at this
      cases this

/- ── SuppInvR building blocks ──────────────────────────────────────── -/

theorem suppInvR_aset_preserve {r : Region} {no : String} {o o' : Order}
    (hS : SuppInvR r) (ho : alookup no r.orders = some o)
    (hsup : o'.suppliedTotal = o.suppliedTotal) :
    SuppInvR { r with orders := aset no o' r.orders } := by
  intro q hq
  have hq2 : q ∈ aset no o' r.orders := hq
  rcases mem_aset hq2 with rfl | hq3
  · show o'.suppliedTotal = suppliedSum no { r with orders := aset no o' r.orders }
    rw [hsup]
    exact hS (no, o) (alookup_mem ho)
  · exact hS q hq3

theorem suppInvR_mapVals {r : Region} {g : Order → Order}
    (hS : SuppInvR r) (hg : ∀ o, (g o).suppliedTotal = o.suppliedTotal) :
    SuppInvR { r with orders := mapVals g r.orders } := by
  intro q hq
  have hq2 : q ∈ mapVals g r.orders := hq
  rcases mem_mapVals hq2 with ⟨p, hp, rfl⟩
  show (g p.2).suppliedTotal = suppliedSum p.1 { r with orders := mapVals g r.orders }
  rw [hg]
  exact hS p hp

theorem suppInvR_fresh {r : Region} {no : String} {o' : Order}
    (hS : SuppInvR r) (hE : EntInvR r) (hRef : RefInvR r)
    (hfresh : alookup no r.orders = none) (hzero : o'.suppliedTotal = 0) :
    SuppInvR { r with orders := aset no o' r.orders } := by
  intro q hq
  have hq2 : q ∈ aset no o' r.orders := hq
  rcases mem_aset hq2 with rfl | hq3
  · show o'.suppliedTotal = suppliedSum no { r with orders := aset no o' r.orders }
    rw [hzero]
    exact (suppliedSum_zero_of_fresh hE hRef hfresh).symm
  · exact hS q hq3

theorem suppInvR_deleteOrder {r : Region} {no : String} (hS : SuppInvR r) :
    SuppInvR { r with orders := aerase no r.orders,
                      dailyLog := mapVals (purgeOrder no) r.dailyLog } := by
  intro q hq
  have hq2 : q ∈ aerase no r.orders := hq
  obtain ⟨hq3, hne⟩ := mem_aerase.mp hq2
  show q.2.suppliedTotal =
    suppliedSum q.1 { r with orders := aerase no r.orders,
                             dailyLog := mapVals (purgeOrder no) r.dailyLog }
  have hpur : suppliedSum q.1
      { r with orders := aerase no r.orders, dailyLog := mapVals (purgeOrder no) r.dailyLog } =
      suppliedSum q.1 r := by
    unfold suppliedSum
    show sumBy _ (mapVals (purgeOrder no) r.dailyLog) = _
    rw [sumBy_mapVals]
    exact sumBy_congr (fun p hp => @entriesSumFor_purge q.1 no hne p.2)
  rw [hpur]
  exact hS q hq3

theorem suppInvR_renameTechRegion {r : Region} (hS : SuppInvR r) (oldN newN : String) :
    SuppInvR (renameTechRegion oldN newN r) := by
  intro q hq
  have hq2 : q ∈ mapVals
      (fun o => { o with allocations := migrate oldN newN o.allocations,
                         overageComments := migrate oldN newN o.overageComments }) r.orders := hq
  rcases mem_mapVals hq2 with ⟨p, hp, rfl⟩
  show p.2.suppliedTotal = suppliedSum p.1 (renameTechRegion oldN newN r)
  have hlog : suppliedSum p.1 (renameTechRegion oldN newN r) = suppliedSum p.1 r := by
    unfold suppliedSum renameTechRegion
    show sumBy _ (mapVals (List.map (renameEntryTech oldN newN)) r.dailyLog) = _
    rw [sumBy_mapVals]
    exact sumBy_congr (fun p' hp' => entriesSumFor_map_rename p.1 oldN newN p'.2)
  rw [hlog]
  exact hS p hp

theorem suppInvR_push_none {r : Region} (hnd : keysND r.dailyLog) {e : Entry}
    (he : e.orderNo = none) (hS : SuppInvR r) (date : String) :
    SuppInvR (pushEntry date e r) := by
  intro q hq
  have hq2 : q ∈ r.orders := hq
  show q.2.suppliedTotal = suppliedSum q.1 (pushEntry date e r)
  rw [suppliedSum_push hnd, hS q hq2]
  unfold contrib
  rw [he]
  simp

theorem suppInvR_push_alloc {r : Region} (hndO : keysND r.orders) (hndD : keysND r.dailyLog)
    (hS : SuppInvR r) {no : String} {o : Order} (ho : alookup no r.orders = some o)
    (amt : Int) (date tech : String) :
    SuppInvR (pushEntry date
      { orderNo := some no, technician := tech, supplied := amt, comment := "",
        unallocated := false }
      { r with orders := aset no { o with suppliedTotal := o.suppliedTotal + amt } r.orders }) := by
  intro q hq
  have hq2 : q ∈ aset no { o with suppliedTotal := o.suppliedTotal + amt } r.orders := hq
  have hpush : ∀ no', suppliedSum no' (pushEntry date
      { orderNo := some no, technician := tech, supplied := amt, comment := "",
        unallocated := false }
      { r with orders := aset no { o with suppliedTotal := o.suppliedTotal + amt } r.orders }) =
      suppliedSum no' r + contrib no'
        { orderNo := some no, technician := tech, supplied := amt, comment := "",
          unallocated := false } := by
    intro no'
    exact suppliedSum_push hndD date _ no'
  rcases mem_aset_strong hndO hq2 with rfl | ⟨hq3, hne⟩
  · show o.suppliedTotal + amt = _
    rw [hpush no, hS (no, o) (alookup_mem ho)]
    unfold contrib
    simp
  · show q.2.suppliedTotal = _
    rw [hpush q.1, hS q hq3]
    unfold contrib
    simp only
    rw [if_neg (by simp; exact fun hh => hne hh.symm)]
    ring

/- ── SuppInv preservation, operation by operation ──────────────────── -/

theorem suppInv_setCur {s : DBState} {r' : Region} (hS : SuppInv s) (hR : SuppInvR r') :
    SuppInv (setCur s r') := by
  intro p hp
  rcases mem_aset hp with rfl | hp'
  · exact hR
  · exact hS p hp'

theorem suppInvR_transfer {r r' : Region} (hO : r'.orders = r.orders)
    (hD : r'.dailyLog = r.dailyLog) (hS : SuppInvR r) : SuppInvR r' := by
  intro q hq
  rw [hO] at hq
  show q.2.suppliedTotal = suppliedSum q.1 r'
  unfold suppliedSum
  rw [hD]
  exact hS q hq

theorem suppInv_createOrder (s : DBState) (no plate : String) (total : Int) (date : String)
    (hS : SuppInv s) (hE : EntInv s) (hRef : RefInv s) :
    SuppInv (createOrder s no plate total date) := by
  unfold createOrder
  cases h : alookup s.currentRegion s.regions with
  | none => exact hS
  | some r =>
      dsimp only
      by_cases hg : no = "" ∨ (alookup no r.orders).isSome
      · rw [if_pos hg]
        exact hS
      · rw [if_neg hg]
        push_neg at hg
        refine suppInv_setCur hS ?_
        exact suppInvR_fresh (hS _ (alookup_mem h)) (hE _ (alookup_mem h)) (hRef _ (alookup_mem h))
          (Option.not_isSome_iff_eq_none.mp (by simpa using hg.2)) rfl

theorem suppInv_allocateFuel (s : DBState) (orderKey tech : String) (amt : Int)
    (hS : SuppInv s) : SuppInv (allocateFuel s orderKey tech amt) := by
  unfold allocateFuel
  cases h : alookup s.currentRegion s.regions with
  | none => exact hS
  | some r =>
      dsimp only
      cases ho : alookup orderKey r.orders with
      | none => exact hS
      | some o =>
          dsimp only
          by_cases h1 : tech = "" ∨ amt = 0
          · rw [if_pos h1]; exact hS
          · rw [if_neg h1]
            by_cases h2 : (alookup tech o.allocations).getD 0 ≠ 0
            · rw [if_pos h2]; exact hS
            · rw [if_neg h2]
              by_cases h3 : o.totalLiters < sumVals o.allocations + amt
              · rw [if_pos h3]; exact hS
              · rw [if_neg h3]
                exact suppInv_setCur hS (suppInvR_aset_preserve (hS _ (alookup_mem h)) ho rfl)

theorem suppInv_saveAllocEdit (s : DBState) (orderNo tech : String) (newAmt : Int)
    (hS : SuppInv s) : SuppInv (saveAllocEdit s orderNo tech newAmt) := by
  unfold saveAllocEdit
  cases h : alookup s.currentRegion s.regions with
  | none => exact hS
  | some r =>
      dsimp only
      cases ho : alookup orderNo r.orders with
      | none => exact hS
      | some o =>
          dsimp only
          by_cases h1 : newAmt < 0
          · rw [if_pos h1]; exact hS
          · rw [if_neg h1]
            by_cases h3 : o.totalLiters < sumVals (aerase tech o.allocations) + newAmt
            · rw [if_pos h3]; exact hS
            · rw [if_neg h3]
              exact suppInv_setCur hS (suppInvR_aset_preserve (hS _ (alookup_mem h)) ho rfl)

theorem suppInv_saveOrderDate (s : DBState) (orderNo newDate : String)
    (hS : SuppInv s) : SuppInv (saveOrderDate s orderNo newDate) := by
  unfold saveOrderDate
  cases h : alookup s.currentRegion s.regions with
  | none => exact hS
  | some r =>
      dsimp only
      cases ho : alookup orderNo r.orders with
      | none => exact hS
      | some o =>
          dsimp only
          by_cases h1 : newDate = ""
          · rw [if_pos h1]; exact hS
          · rw [if_neg h1]
            exact suppInv_setCur hS (suppInvR_aset_preserve (hS _ (alookup_mem h)) ho rfl)

theorem suppInv_saveOverageComment (s : DBState) (orderNo tech comment : String)
    (hS : SuppInv s) : SuppInv (saveOverageComment s orderNo tech comment) := by
  unfold saveOverageComment
  by_cases h0 : comment = ""
  · rw [if_pos h0]; exact hS
  · rw [if_neg h0]
    cases h : alookup s.currentRegion s.regions with
    | none => exact hS
    | some r =>
        dsimp only
        cases ho : alookup orderNo r.orders with
        | none => exact hS
        | some o =>
            dsimp only
            exact suppInv_setCur hS (suppInvR_aset_preserve (hS _ (alookup_mem h)) ho rfl)

theorem suppInv_deleteOrder (s : DBState) (orderNo : String)
    (hS : SuppInv s) : SuppInv (deleteOrder s orderNo) := by
  unfold deleteOrder
  cases h : alookup s.currentRegion s.regions with
  | none => exact hS
  | some r =>
      dsimp only
      cases ho : alookup orderNo r.orders with
      | none => exact hS
      | some o =>
          dsimp only
          exact suppInv_setCur hS (suppInvR_deleteOrder (hS _ (alookup_mem h)))

theorem suppInv_confirmClone (s : DBState) (srcNo newNo newDate : String)
    (hS : SuppInv s) (hE : EntInv s) (hRef : RefInv s) :
    SuppInv (confirmClone s srcNo newNo newDate) := by
  unfold confirmClone
  cases h : alookup s.currentRegion s.regions with
  | none => exact hS
  | some r =>
      dsimp only
      cases ho : alookup srcNo r.orders with
      | none => exact hS
      | some src =>
          dsimp only
          by_cases h1 : newNo = ""
          · rw [if_pos h1]; exact hS
          · rw [if_neg h1]
            by_cases h2 : (alookup newNo r.orders).isSome
            · rw [if_pos h2]; exact hS
            · rw [if_neg h2]
              refine suppInv_setCur hS ?_
              exact suppInvR_fresh (hS _ (alookup_mem h)) (hE _ (alookup_mem h))
                (hRef _ (alookup_mem h)) (Option.not_isSome_iff_eq_none.mp (by simpa using h2)) rfl

theorem suppInv_addRegion (s : DBState) (name : String)
    (hS : SuppInv s) : SuppInv (addRegion s name) := by
  unfold addRegion
  by_cases h : name = "" ∨ (alookup name s.regions).isSome
  · rw [if_pos h]; exact hS
  · rw [if_neg h]
    intro p hp
    rcases mem_aset hp with rfl | hp'
    · intro q hq
      simp [emptyRegion] at hq
    · exact hS p hp'

theorem suppInv_deleteRegion (s : DBState) (name : String)
    (hS : SuppInv s) : SuppInv (deleteRegion s name) := by
  unfold deleteRegion
  by_cases h : s.regions.length ≤ 1
  · rw [if_pos h]; exact hS
  · rw [if_neg h]
    cases hr : alookup name s.regions with
    | none => exact hS
    | some r =>
        dsimp only
        intro p hp
        exact hS p (mem_aerase.mp hp).1

theorem suppInv_addTechnician (s : DBState) (tech plate : String)
    (hS : SuppInv s) : SuppInv (addTechnician s tech plate) := by
  unfold addTechnician
  cases h : alookup s.currentRegion s.regions with
  | none => exact hS
  | some r =>
      dsimp only
      by_cases h1 : tech = "" ∨ plate = ""
      · rw [if_pos h1]; exact hS
      · rw [if_neg h1]
        by_cases h2 : tech ∈ r.technicians
        · rw [if_pos h2]; exact hS
        · rw [if_neg h2]
          exact suppInv_setCur hS (suppInvR_transfer rfl rfl (hS _ (alookup_mem h)))

theorem suppInv_deleteTech (s : DBState) (tech : String)
    (hS : SuppInv s) : SuppInv (deleteTech s tech) := by
  unfold deleteTech
  cases h : alookup s.currentRegion s.regions with
  | none => exact hS
  | some r =>
      dsimp only
      exact suppInv_setCur hS
        (suppInvR_transfer rfl rfl (suppInvR_mapVals (hS _ (alookup_mem h)) (fun o => rfl)))

theorem suppInv_renameRegion (s : DBState) (oldN newN : String)
    (hS : SuppInv s) : SuppInv (renameRegion s oldN newN) := by
  unfold renameRegion
  by_cases h1 : newN = ""
  · rw [if_pos h1]; exact hS
  · rw [if_neg h1]
    by_cases h2 : newN = oldN
    · rw [if_pos h2]; exact hS
    · rw [if_neg h2]
      by_cases h3 : (alookup newN s.regions).isSome
      · rw [if_pos h3]; exact hS
      · rw [if_neg h3]
        cases hr : alookup oldN s.regions with
        | none => exact hS
        | some r =>
            dsimp only
            intro p hp
            rcases mem_aset (mem_aerase.mp hp).1 with rfl | hp'
            · exact hS (oldN, r) (alookup_mem hr)
            · exact hS p hp'

theorem suppInv_renameTech (s : DBState) (oldN newN : String)
    (hS : SuppInv s) : SuppInv (renameTech s oldN newN) := by
  unfold renameTech
  by_cases h1 : newN = ""
  · rw [if_pos h1]; exact hS
  · rw [if_neg h1]
    by_cases h2 : newN = oldN
    · rw [if_pos h2]; exact hS
    · rw [if_neg h2]
      intro p hp
      rcases List.mem_map.mp hp with ⟨q, hq, rfl⟩
      by_cases h3 : oldN ∈ q.2.technicians
      · rw [if_pos h3]
        exact suppInvR_renameTechRegion (hS q hq) oldN newN
      · rw [if_neg h3]
        exact hS q hq

theorem closeIf_supplied (o : Order) : (closeIf o).suppliedTotal = o.suppliedTotal := by
  unfold closeIf
  split <;> rfl

theorem suppInvR_procCard (date : String) (acc : Region × Nat × Nat) (c : Card)
    (hO : keysND acc.1.orders) (hD : keysND acc.1.dailyLog) (hS : SuppInvR acc.1) :
    keysND (procCard date acc c).1.orders ∧ keysND (procCard date acc c).1.dailyLog ∧
      SuppInvR (procCard date acc c).1 := by
  unfold procCard
  split
  · exact ⟨hO, hD, hS⟩
  · split
    · split
      · exact ⟨hO, hD, hS⟩
      · exact ⟨hO, keysND_aset _ _ hD, suppInvR_push_none hD rfl hS date⟩
    · split
      · exact ⟨hO, hD, hS⟩
      · split
        · exact ⟨hO, hD, hS⟩
        · split
          · exact ⟨hO, hD, hS⟩
          · split
            · exact ⟨hO, hD, hS⟩
            · rename_i o ho hcl
              exact ⟨keysND_aset _ _ hO, keysND_aset _ _ hD,
                suppInvR_push_alloc hO hD hS ho _ date c.tech⟩

theorem suppInvR_foldl (date : String) :
    ∀ (cards : List Card) (acc : Region × Nat × Nat),
      keysND acc.1.orders → keysND acc.1.dailyLog → SuppInvR acc.1 →
      keysND (List.foldl (procCard date) acc cards).1.orders ∧
        keysND (List.foldl (procCard date) acc cards).1.dailyLog ∧
        SuppInvR (List.foldl (procCard date) acc cards).1 := by
  intro cards
  induction cards with
  | nil => intro acc hO hD hS; exact ⟨hO, hD, hS⟩
  | cons c t ih =>
      intro acc hO hD hS
      obtain ⟨hO', hD', hS'⟩ := suppInvR_procCard date acc c hO hD hS
      exact ih _ hO' hD' hS'

theorem ensureDate_facts (date : String) {r : Region} (hO : keysND r.orders)
    (hD : keysND r.dailyLog) (hS : SuppInvR r) :
    keysND (ensureDate date r).orders ∧ keysND (ensureDate date r).dailyLog ∧
      SuppInvR (ensureDate date r) := by
  unfold ensureDate
  split
  · exact ⟨hO, hD, hS⟩
  · rename_i hfalse
    have hnone : alookup date r.dailyLog = none :=
      Option.not_isSome_iff_eq_none.mp (by simpa using hfalse)
    refine ⟨hO, keysND_aset _ _ hD, ?_⟩
    intro q hq
    have hq2 : q ∈ r.orders := hq
    show q.2.suppliedTotal = suppliedSum q.1 { r with dailyLog := aset date [] r.dailyLog }
    unfold suppliedSum
    show _ = sumBy _ (aset date ([] : List Entry) r.dailyLog)
    rw [sumBy_aset _ _ _ hD, aerase_of_none hnone]
    have : entriesSumFor q.1 ([] : List Entry) = 0 := rfl
    rw [this]
    rw [hS q hq2]
    unfold suppliedSum
    ring

theorem suppInv_saveDaily (s : DBState) (date : String) (cards : List Card)
    (hS : SuppInv s) (hWF : WF s) : SuppInv (saveDaily s date cards) := by
  unfold saveDaily saveDailyRes
  by_cases h0 : date = ""
  · rw [if_pos h0]; exact hS
  · rw [if_neg h0]
    cases h : alookup s.currentRegion s.regions with
    | none => exact hS
    | some r =>
        dsimp only
        obtain ⟨hndO, hndD, _, _⟩ := wf_region hWF h
        obtain ⟨heO, heD, heS⟩ := ensureDate_facts date hndO hndD (hS _ (alookup_mem h))
        by_cases hc : cards = []
        · rw [if_pos hc]
          exact suppInv_setCur hS heS
        · rw [if_neg hc]
          obtain ⟨hfO, hfD, hfS⟩ :=
            suppInvR_foldl date cards (ensureDate date r, 0, 0) heO heD heS
          exact suppInv_setCur hS (suppInvR_transfer rfl rfl (suppInvR_mapVals hfS closeIf_supplied))

theorem suppInvR_edit_main {r : Region} (hndO : keysND r.orders) (hndD : keysND r.dailyLog)
    (hEr : EntInvR r) (hSr : SuppInvR r)
    {date : String} {entries : List Entry} (hd : alookup date r.dailyLog = some entries)
    {idx : Nat} (hlen : idx < entries.length) {no : String}
    (hno : (entries.get ⟨idx, hlen⟩).orderNo = some no)
    {o : Order} (ho : alookup no r.orders = some o)
    (newSupply : Int) (hpos : 0 < newSupply) {o' : Order}
    (ho' : o'.suppliedTotal =
      max 0 (o.suppliedTotal + (newSupply - (entries.get ⟨idx, hlen⟩).supplied)))
    {e' : Entry} (heo : e'.orderNo = (entries.get ⟨idx, hlen⟩).orderNo)
    (hes : e'.supplied = newSupply) :
    SuppInvR { r with orders := aset no o' r.orders,
                      dailyLog := aset date (entries.set idx e') r.dailyLog } := by
  intro q hq
  have hq2 : q ∈ aset no o' r.orders := hq
  have hold : contrib no (entries.get ⟨idx, hlen⟩) = (entries.get ⟨idx, hlen⟩).supplied := by
    unfold contrib
    rw [hno]
    simp
  have hsum := suppliedSum_set_entry hndD hd hlen e' q.1
  rcases mem_aset_strong hndO hq2 with rfl | ⟨hq3, hne⟩
  · have hge : contrib no (entries.get ⟨idx, hlen⟩) ≤ suppliedSum no r :=
      suppliedSum_ge_entry hndD hEr hd hlen no
    have hco : contrib no e' = newSupply := by
      unfold contrib
      rw [heo, hno]
      simp [hes]
    have hook : o.suppliedTotal = suppliedSum no r := hSr (no, o) (alookup_mem ho)
    have harith : o'.suppliedTotal =
        suppliedSum no r + contrib no e' - contrib no (entries.get ⟨idx, hlen⟩) := by
      rw [ho', hook, hco, hold]
      have hx : 0 ≤ suppliedSum no r + (newSupply - (entries.get ⟨idx, hlen⟩).supplied) := by
        omega
      rw [max_eq_right hx]
      ring
    exact harith.trans hsum.symm
  · have hc1 : contrib q.1 e' = 0 := by
      unfold contrib
      rw [heo, hno]
      simp
      exact fun hh => absurd hh.symm hne
    have hc2 : contrib q.1 (entries.get ⟨idx, hlen⟩) = 0 := by
      unfold contrib
      rw [hno]
      simp
      exact fun hh => absurd hh.symm hne
    have harith : q.2.suppliedTotal =
        suppliedSum q.1 r + contrib q.1 e' - contrib q.1 (entries.get ⟨idx, hlen⟩) := by
      rw [hc1, hc2, hSr q hq3]
      ring
    exact harith.trans hsum.symm

theorem suppInvR_edit_unalloc {r : Region} (hndD : keysND r.dailyLog) (hSr : SuppInvR r)
    {date : String} {entries : List Entry} (hd : alookup date r.dailyLog = some entries)
    {idx : Nat} (hlen : idx < entries.length)
    (hun : (entries.get ⟨idx, hlen⟩).orderNo = none)
    {e' : Entry} (heo : e'.orderNo = (entries.get ⟨idx, hlen⟩).orderNo) :
    SuppInvR { r with dailyLog := aset date (entries.set idx e') r.dailyLog } := by
  intro q hq
  have hq2 : q ∈ r.orders := hq
  have hsum := suppliedSum_set_entry hndD hd hlen e' q.1
  have hc1 : contrib q.1 e' = 0 := by
    unfold contrib
    rw [heo, hun]
    simp
  have hc2 : contrib q.1 (entries.get ⟨idx, hlen⟩) = 0 := by
    unfold contrib
    rw [hun]
    simp
  have harith : q.2.suppliedTotal =
      suppliedSum q.1 r + contrib q.1 e' - contrib q.1 (entries.get ⟨idx, hlen⟩) := by
    rw [hc1, hc2, hSr q hq2]
    ring
  exact harith.trans hsum.symm

theorem suppliedSum_delentry_log {r : Region} (hndD : keysND r.dailyLog) {date : String}
    {entries : List Entry} (hd : alookup date r.dailyLog = some entries) {idx : Nat}
    (hlen : idx < entries.length) (no : String) :
    suppliedSum no { r with dailyLog := if entries.eraseIdx idx = [] then aerase date r.dailyLog
                                        else aset date (entries.eraseIdx idx) r.dailyLog } =
      suppliedSum no r - contrib no (entries.get ⟨idx, hlen⟩) := by
  have h1 := entriesSumFor_eraseIdx no entries idx hlen
  split
  · rename_i hemp
    rw [hemp] at h1
    have h0 : entriesSumFor no ([] : List Entry) = 0 := rfl
    rw [suppliedSum_aerase_log hndD hd]
    omega
  · rw [suppliedSum_aset_log hndD hd]
    omega

theorem suppInvR_del_alloc {r : Region} (hndO : keysND r.orders) (hndD : keysND r.dailyLog)
    (hEr : EntInvR r) (hSr : SuppInvR r) {date : String} {entries : List Entry}
    (hd : alookup date r.dailyLog = some entries) {idx : Nat} (hlen : idx < entries.length)
    {no : String} (hno : (entries.get ⟨idx, hlen⟩).orderNo = some no)
    {o : Order} (ho : alookup no r.orders = some o) {o' : Order}
    (ho' : o'.suppliedTotal = max 0 (o.suppliedTotal - (entries.get ⟨idx, hlen⟩).supplied)) :
    SuppInvR { r with orders := aset no o' r.orders,
                      dailyLog := if entries.eraseIdx idx = [] then aerase date r.dailyLog
                                  else aset date (entries.eraseIdx idx) r.dailyLog } := by
  intro q hq
  have hq2 : q ∈ aset no o' r.orders := hq
  have hsum := suppliedSum_delentry_log hndD hd hlen q.1
  rcases mem_aset_strong hndO hq2 with rfl | ⟨hq3, hne⟩
  · have hge := suppliedSum_ge_entry hndD hEr hd hlen no
    have hold : contrib no (entries.get ⟨idx, hlen⟩) = (entries.get ⟨idx, hlen⟩).supplied := by
      unfold contrib
      rw [hno]
      simp
    have hook : o.suppliedTotal = suppliedSum no r := hSr (no, o) (alookup_mem ho)
    have harith : o'.suppliedTotal =
        suppliedSum no r - contrib no (entries.get ⟨idx, hlen⟩) := by
      rw [ho', hook, hold]
      have hx : 0 ≤ suppliedSum no r - (entries.get ⟨idx, hlen⟩).supplied := by
        rw [hold] at hge
        omega
      rw [max_eq_right hx]
    exact harith.trans hsum.symm
  · have hc2 : contrib q.1 (entries.get ⟨idx, hlen⟩) = 0 := by
      unfold contrib
      rw [hno]
      simp
      exact fun hh => absurd hh.symm hne
    have harith : q.2.suppliedTotal =
        suppliedSum q.1 r - contrib q.1 (entries.get ⟨idx, hlen⟩) := by
      rw [hc2, hSr q hq3]
      ring
    exact harith.trans hsum.symm

theorem suppInvR_del_unalloc {r : Region} (hndD : keysND r.dailyLog) (hSr : SuppInvR r)
    {date : String} {entries : List Entry} (hd : alookup date r.dailyLog = some entries)
    {idx : Nat} (hlen : idx < entries.length)
    (hun : (entries.get ⟨idx, hlen⟩).orderNo = none) :
    SuppInvR { r with dailyLog := if entries.eraseIdx idx = [] then aerase date r.dailyLog
                                  else aset date (entries.eraseIdx idx) r.dailyLog } := by
  intro q hq
  have hq2 : q ∈ r.orders := hq
  have hsum := suppliedSum_delentry_log hndD hd hlen q.1
  have hc2 : contrib q.1 (entries.get ⟨idx, hlen⟩) = 0 := by
    unfold contrib
    rw [hun]
    simp
  have harith : q.2.suppliedTotal =
      suppliedSum q.1 r - contrib q.1 (entries.get ⟨idx, hlen⟩) := by
    rw [hc2, hSr q hq2]
    ring
  exact harith.trans hsum.symm

theorem entry_ref_data {r : Region} (hEr : EntInvR r) (hRr : RefInvR r)
    {date : String} {entries : List Entry} (hd : alookup date r.dailyLog = some entries)
    {e : Entry} (he : e ∈ entries) (hu : e.unallocated = false) :
    ∃ no, e.orderNo = some no ∧ no ≠ "" ∧ (alookup no r.orders).isSome = true := by
  obtain ⟨hpos, hun, hal⟩ := hEr (date, entries) (alookup_mem hd) e he
  obtain ⟨hne1, hne2⟩ := hal hu
  cases hx : e.orderNo with
  | none => exact absurd hx hne1
  | some no =>
      have hno : no ≠ "" := fun hh => hne2 (by rw [hx, hh])
      have hsome := hRr (date, entries) (alookup_mem hd) e he hu
      rw [hx] at hsome
      simp at hsome
      exact ⟨no, rfl, hno, hsome⟩

theorem jsTruthy_of_some_ne {os : Option String} {no : String} (hx : os = some no)
    (hno : no ≠ "") : jsTruthyO os = true := by
  rw [hx]
  unfold jsTruthyO
  simp [hno]

theorem suppInv_saveEditEntry (s : DBState) (date : String) (idx : Nat) (newSupply : Int)
    (newComment : String) (hS : SuppInv s) (hWF : WF s) (hE : EntInv s) (hRef : RefInv s) :
    SuppInv (saveEditEntry s date idx newSupply newComment) := by
  unfold saveEditEntry
  cases h : alookup s.currentRegion s.regions with
  | none => exact hS
  | some r =>
      dsimp only
      cases hd : alookup date r.dailyLog with
      | none => exact hS
      | some entries =>
          dsimp only
          have hEr : EntInvR r := hE _ (alookup_mem h)
          have hRr : RefInvR r := hRef _ (alookup_mem h)
          have hSr : SuppInvR r := hS _ (alookup_mem h)
          obtain ⟨hndO, hndD, hndP, hndA⟩ := wf_region hWF h
          split
          · rename_i hlen
            by_cases h1 : newSupply ≤ 0
            · rw [if_pos h1]; exact hS
            · rw [if_neg h1]
              by_cases h2 : (entries.get ⟨idx, hlen⟩).unallocated = true ∧ newComment = ""
              · rw [if_pos h2]; exact hS
              · rw [if_neg h2]
                refine suppInv_setCur hS ?_
                split
                · rename_i hcond
                  split
                  · rename_i no2 hno2
                    split
                    · rename_i o ho
                      exact suppInvR_edit_main hndO hndD hEr hSr hd hlen hno2 ho
                        newSupply (by omega) rfl rfl rfl
                    · rename_i ho
                      exfalso
                      obtain ⟨no, hno, hnz, hsome⟩ :=
                        entry_ref_data hEr hRr hd (entries.get_mem _ _) hcond.1
                      rw [hno2] at hno
                      injection hno with hnoeq
                      rw [← hnoeq] at hsome
                      rw [ho] at hsome
                      cases hsome
                  · rename_i hno2
                    exfalso
                    obtain ⟨no, hno, hnz, hsome⟩ :=
                      entry_ref_data hEr hRr hd (entries.get_mem _ _) hcond.1
                    rw [hno2] at hno
                    cases hno
                · rename_i hcond
                  cases hu : (entries.get ⟨idx, hlen⟩).unallocated with
                  | true =>
                      have hun : (entries.get ⟨idx, hlen⟩).orderNo = none :=
                        (hEr (date, entries) (alookup_mem hd) _ (entries.get_mem _ _)).2.1 hu
                      exact suppInvR_edit_unalloc hndD hSr hd hlen hun rfl
                  | false =>
                      exfalso
                      obtain ⟨no, hno, hnz, hsome⟩ :=
                        entry_ref_data hEr hRr hd (entries.get_mem _ _) hu
                      exact hcond ⟨hu, jsTruthy_of_some_ne hno hnz⟩
          · exact hS

theorem suppInv_deleteDailyEntry (s : DBState) (date : String) (idx : Nat)
    (hS : SuppInv s) (hWF : WF s) (hE : EntInv s) (hRef : RefInv s) :
    SuppInv (deleteDailyEntry s date idx) := by
  unfold deleteDailyEntry
  cases h : alookup s.currentRegion s.regions with
  | none => exact hS
  | some r =>
      dsimp only
      cases hd : alookup date r.dailyLog with
      | none => exact hS
      | some entries =>
          dsimp only
          have hEr : EntInvR r := hE _ (alookup_mem h)
          have hRr : RefInvR r := hRef _ (alookup_mem h)
          have hSr : SuppInvR r := hS _ (alookup_mem h)
          obtain ⟨hndO, hndD, hndP, hndA⟩ := wf_region hWF h
          split
          · rename_i hlen
            refine suppInv_setCur hS ?_
            split
            · rename_i hcond
              split
              · rename_i no2 hno2
                split
                · rename_i o ho
                  exact suppInvR_del_alloc hndO hndD hEr hSr hd hlen hno2 ho rfl
                · rename_i ho
                  exfalso
                  obtain ⟨no, hno, hnz, hsome⟩ :=
                    entry_ref_data hEr hRr hd (entries.get_mem _ _) hcond.1
                  rw [hno2] at hno
                  injection hno with hnoeq
                  rw [← hnoeq] at hsome
                  rw [ho] at hsome
                  cases hsome
              · rename_i hno2
                exfalso
                obtain ⟨no, hno, hnz, hsome⟩ :=
                  entry_ref_data hEr hRr hd (entries.get_mem _ _) hcond.1
                rw [hno2] at hno
                cases hno
            · rename_i hcond
              cases hu : (entries.get ⟨idx, hlen⟩).unallocated with
              | true =>
                  have hun : (entries.get ⟨idx, hlen⟩).orderNo = none :=
                    (hEr (date, entries) (alookup_mem hd) _ (entries.get_mem _ _)).2.1 hu
                  exact suppInvR_del_unalloc hndD hSr hd hlen hun
              | false =>
                  exfalso
                  obtain ⟨no, hno, hnz, hsome⟩ :=
                    entry_ref_data hEr hRr hd (entries.get_mem _ _) hu
                  exact hcond ⟨hu, jsTruthy_of_some_ne hno hnz⟩
          · exact hS

/- ── Claim C2 ──────────────────────────────────────────────────────── -/

/-- C2 (confirmed): after every mutating ledger operation on a store
satisfying the structural invariants, the cached `suppliedTotal` field
of every order equals the sum of the supplied litres of all daily-log
entries of that order's region (across all dates) whose `orderNo`
references the order. -/
theorem claim2_supplied_invariant (op : Op) (s : DBState) (hG : Good s) :
    SuppInv (applyOp op s) := by
  obtain ⟨hWF, hPos, hStat, hEnt, hRef, hSupp, hAlloc, hNN⟩ := hG
  cases op with
  | createOrder no plate total date => exact suppInv_createOrder s no plate total date hSupp hEnt hRef
  | allocateFuel orderKey tech amt => exact suppInv_allocateFuel s orderKey tech amt hSupp
  | saveAllocEdit orderNo tech newAmt => exact suppInv_saveAllocEdit s orderNo tech newAmt hSupp
  | saveOrderDate orderNo newDate => exact suppInv_saveOrderDate s orderNo newDate hSupp
  | saveOverageComment orderNo tech comment =>
      exact suppInv_saveOverageComment s orderNo tech comment hSupp
  | deleteOrder orderNo => exact suppInv_deleteOrder s orderNo hSupp
  | confirmClone srcNo newNo newDate => exact suppInv_confirmClone s srcNo newNo newDate hSupp hEnt hRef
  | saveDaily date cards => exact suppInv_saveDaily s date cards hSupp hWF
  | saveEditEntry date idx newSupply newComment =>
      exact suppInv_saveEditEntry s date idx newSupply newComment hSupp hWF hEnt hRef
  | deleteDailyEntry date idx => exact suppInv_deleteDailyEntry s date idx hSupp hWF hEnt hRef
  | addRegion name => exact suppInv_addRegion s name hSupp
  | deleteRegion name => exact suppInv_deleteRegion s name hSupp
  | addTechnician tech plate => exact suppInv_addTechnician s tech plate hSupp
  | deleteTech tech => exact suppInv_deleteTech s tech hSupp
  | renameRegion oldN newN => exact suppInv_renameRegion s oldN newN hSupp
  | renameTech oldN newN => exact suppInv_renameTech s oldN newN hSupp

/-- C2 (witness): the theorem applied to the populated store `wState`
and a concrete daily-entry edit raising the supplied amount. -/
theorem claim2_witness :
    Good wState ∧ SuppInv (applyOp (Op.saveEditEntry "2026-01-01" 0 9 "") wState) :=
  ⟨by decide, claim2_supplied_invariant (Op.saveEditEntry "2026-01-01" 0 9 "") wState (by decide)⟩

/- ── Claim C4 ──────────────────────────────────────────────────────── -/

theorem regions_ne_applyOp (op : Op) (s : DBState) (hWF : WF s) (hne : s.regions ≠ []) :
    (applyOp op s).regions ≠ [] := by
  cases op with
  | createOrder no plate total date =>
      dsimp only [applyOp]
      unfold createOrder
      repeat' (first | split | dsimp only)
      all_goals first
        | exact hne
        | exact aset_ne_nil _ _ _
  | allocateFuel orderKey tech amt =>
      dsimp only [applyOp]
      unfold allocateFuel
      repeat' (first | split | dsimp only)
      all_goals first
        | exact hne
        | exact aset_ne_nil _ _ _
  | saveAllocEdit orderNo tech newAmt =>
      dsimp only [applyOp]
      unfold saveAllocEdit
      repeat' (first | split | dsimp only)
      all_goals first
        | exact hne
        | exact aset_ne_nil _ _ _
  | saveOrderDate orderNo newDate =>
      dsimp only [applyOp]
      unfold saveOrderDate
      repeat' (first | split | dsimp only)
      all_goals first
        | exact hne
        | exact aset_ne_nil _ _ _
  | saveOverageComment orderNo tech comment =>
      dsimp only [applyOp]
      unfold saveOverageComment
      repeat' (first | split | dsimp only)
      all_goals first
        | exact hne
        | exact aset_ne_nil _ _ _
  | deleteOrder orderNo =>
      dsimp only [applyOp]
      unfold deleteOrder
      repeat' (first | split | dsimp only)
      all_goals first
        | exact hne
        | exact aset_ne_nil _ _ _
  | confirmClone srcNo newNo newDate =>
      dsimp only [applyOp]
      unfold confirmClone
      repeat' (first | split | dsimp only)
      all_goals first
        | exact hne
        | exact aset_ne_nil _ _ _
  | saveDaily date cards =>
      dsimp only [applyOp]
      unfold saveDaily saveDailyRes
      repeat' (first | split | dsimp only)
      all_goals first
        | exact hne
        | exact aset_ne_nil _ _ _
  | saveEditEntry date idx newSupply newComment =>
      dsimp only [applyOp]
      unfold saveEditEntry
      repeat' (first | split | dsimp only)
      all_goals first
        | exact hne
        | exact aset_ne_nil _ _ _
  | deleteDailyEntry date idx =>
      dsimp only [applyOp]
      unfold deleteDailyEntry
      repeat' (first | split | dsimp only)
      all_goals first
        | exact hne
        | exact aset_ne_nil _ _ _
  | addRegion name =>
      dsimp only [applyOp]
      unfold addRegion
      repeat' (first | split | dsimp only)
      all_goals first
        | exact hne
        | exact aset_ne_nil _ _ _
  | addTechnician tech plate =>
      dsimp only [applyOp]
      unfold addTechnician
      repeat' (first | split | dsimp only)
      all_goals first
        | exact hne
        | exact aset_ne_nil _ _ _
  | deleteTech tech =>
      dsimp only [applyOp]
      unfold deleteTech
      repeat' (first | split | dsimp only)
      all_goals first
        | exact hne
        | exact aset_ne_nil _ _ _
  | renameTech oldN newN =>
      dsimp only [applyOp]
      unfold renameTech
      repeat' (first | split | dsimp only)
      all_goals first
        | exact hne
        | (intro hc
           exact hne (List.map_eq_nil_iff.mp hc))
  | deleteRegion name =>
      dsimp only [applyOp]
      unfold deleteRegion
      split
      · exact hne
      · rename_i hlen
        cases hr : alookup name s.regions with
        | none => exact hne
        | some r =>
            dsimp only
            intro hc
            have hlen2 := aerase_length hWF.1 hr
            rw [hc] at hlen2
            simp at hlen2
            omega
  | renameRegion oldN newN =>
      dsimp only [applyOp]
      unfold renameRegion
      split
      · exact hne
      · split
        · exact hne
        · rename_i h2
          split
          · exact hne
          · cases hr : alookup oldN s.regions with
            | none => exact hne
            | some r =>
                dsimp only
                intro hc
                have hmem : (newN, r) ∈ aerase oldN (aset newN r s.regions) :=
                  mem_aerase.mpr ⟨mem_aset_self _ _ _, h2⟩
                rw [hc] at hmem
                cases hmem

/-- C4 (counterexample): the claim as stated is false on the code.
`restoreData` only checks that `parsed.regions` and
`parsed.currentRegion` are truthy; an empty `regions` object `{}` is
truthy in JavaScript, so the candidate
`{ currentRegion: "x", regions: {} }` is accepted and installs a store
whose region set is empty. -/
theorem claim4_counterexample :
    initState.regions ≠ [] ∧
      restoreData initState { regions := some [], currentRegion := some "x" } ≠ initState ∧
      (restoreData initState { regions := some [], currentRegion := some "x" }).regions = [] := by
  refine ⟨by decide, ?_, rfl⟩
  intro hc
  have := congrArg DBState.regions hc
  simp [restoreData, initState] at this

/-- C4 (amended): every mutating ledger operation preserves a non-empty
region set (in particular `deleteRegion` refuses to delete the only
remaining region), and an accepted restore yields a non-empty region
set whenever the candidate document's `regions` mapping is non-empty —
but the restore check itself only requires the `regions` and
`currentRegion` keys to be truthy, so a document with an EMPTY regions
mapping is accepted as well. -/
theorem claim4_nonempty :
    (∀ (op : Op) (s : DBState), WF s → s.regions ≠ [] → (applyOp op s).regions ≠ []) ∧
      (∀ (s : DBState) (c : Candidate) (rs : List (String × Region)) (cr : String),
        c.regions = some rs → c.currentRegion = some cr → cr ≠ "" → rs ≠ [] →
        (restoreData s c).regions ≠ []) := by
  constructor
  · exact fun op s hWF hne => regions_ne_applyOp op s hWF hne
  · intro s c rs cr h1 h2 h3 h4
    unfold restoreData
    rw [h1, h2]
    dsimp only
    rw [if_neg h3]
    exact h4

/-- C4 (witness): the amended theorem applied to a concrete deletion of
the only region (refused) and to a concrete restore of a candidate with
a non-empty regions mapping. -/
theorem claim4_witness :
    WF wState ∧ wState.regions ≠ [] ∧
      (applyOp (Op.deleteRegion "R") wState).regions ≠ [] ∧
      (restoreData initState
        { regions := some [("R", wRegion)], currentRegion := some "R" }).regions ≠ [] :=
  ⟨by decide, by decide,
    claim4_nonempty.1 (Op.deleteRegion "R") wState (by decide) (by decide),
    claim4_nonempty.2 initState { regions := some [("R", wRegion)], currentRegion := some "R" }
      [("R", wRegion)] "R" rfl rfl (by decide) (by decide)⟩

/- ── Claim C7 ──────────────────────────────────────────────────────── -/

/-- An order on which technician `"A"` holds a zero-valued allocation
entry. -/
def c7Order : Order :=
  { orderNo := "O1", vehiclePlate := "P1", totalLiters := 100, suppliedTotal := 0,
    allocations := [("A", 0)], status := Status.OPEN, createdDate := "2026-01-01",
    overageComments := [] }

/-- Store used to refute the zero-allocation half of the claim. -/
def c7State : DBState :=
  { currentRegion := "R",
    regions := [("R",
      { technicians := ["A"], technicianPlates := [("A", "V1")],
        orders := [("O1", c7Order)], dailyLog := [] })] }

/-- C7 (counterexample): technician `"A"` already has an allocation
entry of value `0` on order `"O1"`, yet `allocateFuel` does NOT fail:
the guard `if (o.allocations[t])` treats the stored `0` as falsy, so
the call goes through and silently overwrites the entry with the new
amount `5`. -/
theorem claim7_counterexample :
    alookup "A" c7Order.allocations = some 0 ∧
      allocateFuel c7State "O1" "A" 5 ≠ c7State ∧
      (alookup "R" (allocateFuel c7State "O1" "A" 5).regions).map
          (fun r => (alookup "O1" r.orders).map (fun o => alookup "A" o.allocations)) =
        some (some (some (5 : Int))) := by
  refine ⟨rfl, ?_, rfl⟩
  decide

/-- C7 (amended): `allocateFuel` refuses the call and leaves the store
(and in particular the order's allocations map) unchanged whenever the
technician's existing allocation entry on that order is NON-ZERO; a
zero-valued entry does not trigger the `AlreadyAllocated` failure
because the code tests the stored amount for truthiness rather than
the key for presence. -/
theorem claim7_already_allocated (s : DBState) (orderKey tech : String) (amt : Int)
    (r : Region) (o : Order)
    (hr : alookup s.currentRegion s.regions = some r)
    (ho : alookup orderKey r.orders = some o)
    (hv : (alookup tech o.allocations).getD 0 ≠ 0) :
    allocateFuel s orderKey tech amt = s := by
  unfold allocateFuel
  rw [hr]
  dsimp only
  rw [ho]
  dsimp only
  split
  all_goals first
    | rfl
    | rw [if_pos hv]

/-- C7 (witness): on the populated store `wState`, technician `"A"`
holds a non-zero allocation (60 L) on `"O1"`, and a second allocation
attempt leaves the store untouched. -/
theorem claim7_witness :
    (alookup "A" wOrder.allocations).getD 0 ≠ 0 ∧
      allocateFuel wState "O1" "A" 5 = wState :=
  ⟨by decide, claim7_already_allocated wState "O1" "A" 5 wRegion wOrder rfl rfl (by decide)⟩

/- ── Claim C9 ──────────────────────────────────────────────────────── -/

theorem mapVals_id_of (f : α → α) (l : List (String × α)) (h : ∀ p ∈ l, f p.2 = p.2) :
    mapVals f l = l := by
  induction l with
  | nil => rfl
  | cons p t ih =>
      unfold mapVals
      simp only [List.map_cons]
      rw [h p (List.mem_cons_self _ _)]
      have h2 := ih (fun q hq => h q (List.mem_cons_of_mem _ hq))
      unfold mapVals at h2
      rw [h2]

/-- An order whose status field violates the status invariant: total 0,
supplied 0, yet OPEN (such orders exist in the store because
`createOrder` performs no validation of the total). -/
def c9Order : Order := newOrder "O1" "P" 0 "2026-01-01"

/-- Store exhibiting the render side effect. -/
def c9State : DBState :=
  { currentRegion := "R",
    regions := [("R",
      { technicians := [], technicianPlates := [],
        orders := [("O1", c9Order)], dailyLog := [] })] }

/-- C9 (counterexample): rendering the orders list is NOT read-only.
`_buildOrderCard` executes
`if (bal <= 0 && o.status !== 'CLOSED') o.status = 'CLOSED';` on the
live store object, so rendering a store containing an OPEN order with
zero remaining balance mutates that order's status to CLOSED. -/
theorem claim9_counterexample :
    renderOrdersState c9State ≠ c9State ∧
      (alookup "R" (renderOrdersState c9State).regions).map
          (fun r => (alookup "O1" r.orders).map Order.status) =
        some (some Status.CLOSED) ∧
      c9Order.status = Status.OPEN := by
  refine ⟨?_, rfl, rfl⟩
  decide

/-- C9 (amended): the reporting projections are read-only EXCEPT for the
order-card renderer, which re-derives and writes back the status field;
on any store already satisfying the status invariant (status = CLOSED
iff supplied ≥ total) that write-back is the identity, so rendering
leaves such stores unchanged. -/
theorem claim9_render_frame (s : DBState) (hStat : StatusInv s) :
    renderOrdersState s = s := by
  unfold renderOrdersState
  cases hr : alookup s.currentRegion s.regions with
  | none => rfl
  | some r =>
      dsimp only
      have hid : mapVals normCard r.orders = r.orders := by
        apply mapVals_id_of
        intro q hq
        have hOK : StatusOK q.2 := hStat _ (alookup_mem hr) q hq
        unfold normCard
        rw [if_neg]
        rintro ⟨hbal, hne⟩
        exact hne (hOK.mpr (by omega))
      rw [hid]
      rw [aset_lookup_self hr]

/-- C9 (witness): the amended frame theorem applied to the populated
store `wState`, whose orders all satisfy the status invariant. -/
theorem claim9_witness :
    StatusInv wState ∧ renderOrdersState wState = wState :=
  ⟨by decide, claim9_render_frame wState (by decide)⟩

/- ── Claim C10 ─────────────────────────────────────────────────────── -/

/-- A daily entry referencing order `"O1"`. -/
def c10Entry : Entry :=
  { orderNo := some "O1", technician := "A", supplied := 5, comment := "",
    unallocated := false }

/-- Order referenced by the single daily entry of `c10State`. -/
def c10Order : Order :=
  { orderNo := "O1", vehiclePlate := "P1", totalLiters := 100, suppliedTotal := 5,
    allocations := [("A", 60)], status := Status.OPEN, createdDate := "2026-01-01",
    overageComments := [] }

/-- Region whose only daily-log date holds exactly one entry, which
references the only order. -/
def c10Region : Region :=
  { technicians := ["A"], technicianPlates := [("A", "V1")],
    orders := [("O1", c10Order)],
    dailyLog := [("2026-01-01", [c10Entry])] }

/-- Store on which `deleteOrder` empties a date's entry list without
removing the date key. -/
def c10State : DBState := { currentRegion := "R", regions := [("R", c10Region)] }

/-- C10: (1) whenever deleting a daily entry leaves that date's entry
list empty, `deleteDailyEntry` removes the date key from the region's
daily log (the date no longer resolves at all); (2) `deleteOrder` only
filters the order's entries out of each date's list: on `c10State` it
leaves the date key `"2026-01-01"` present and mapped to the empty
list. -/
theorem claim10_empty_date_keys :
    (∀ (s : DBState) (date : String) (idx : Nat) (r : Region) (entries : List Entry),
        alookup s.currentRegion s.regions = some r →
        alookup date r.dailyLog = some entries →
        idx < entries.length → entries.eraseIdx idx = [] →
        (alookup s.currentRegion (deleteDailyEntry s date idx).regions).map
            (fun r2 => alookup date r2.dailyLog) = some none) ∧
      (alookup "R" (deleteOrder c10State "O1").regions).map
          (fun r2 => alookup "2026-01-01" r2.dailyLog) = some (some []) := by
  constructor
  · intro s date idx r entries hr hd hlt hemp
    unfold deleteDailyEntry
    rw [hr]
    dsimp only
    rw [hd]
    dsimp only
    rw [dif_pos hlt]
    dsimp only
    rw [hemp]
    rw [if_pos rfl]
    rw [alookup_aset_self]
    simp [alookup_aerase_self]
  · rfl

/-- C10 (witness): the universal half applied to `c10State`, whose date
`"2026-01-01"` holds a single entry; deleting entry 0 removes the date
key. -/
theorem claim10_witness :
    (alookup "R" (deleteDailyEntry c10State "2026-01-01" 0).regions).map
        (fun r2 => alookup "2026-01-01" r2.dailyLog) = some none :=
  claim10_empty_date_keys.1 c10State "2026-01-01" 0 c10Region [c10Entry]
    rfl rfl (by decide) (by decide)

/- ── Claim C5 ──────────────────────────────────────────────────────── -/

/-- SPEC-MODELLED definition (from the spec's words, for comparison with
the code): the actual applied amount of an allocated daily entry is
`min(requested, remaining-allocation-for-tech, remaining-order-balance)`. -/
def specActualAmt (r : Region) (o : Order) (tech : String) (requested : Int) : Int :=
  min requested
    (min ((alookup tech o.allocations).getD 0 - usedSoFarFor r o.orderNo tech)
         (o.totalLiters - o.suppliedTotal))

/-- Order whose technician `"A"` has exhausted their 30 L allocation:
total 100, supplied 50, all of technician A's allocation already
delivered. -/
def c5Order : Order :=
  { orderNo := "O1", vehiclePlate := "P1", totalLiters := 100, suppliedTotal := 50,
    allocations := [("A", 30), ("B", 40)], status := Status.OPEN,
    createdDate := "2026-01-01", overageComments := [] }

/-- Region of `c5State`: the daily log already records A's 30 L and B's
20 L against `"O1"`. -/
def c5Region : Region :=
  { technicians := ["A", "B"],
    technicianPlates := [("A", "V1"), ("B", "V2")],
    orders := [("O1", c5Order)],
    dailyLog := [("2026-01-01",
      [{ orderNo := some "O1", technician := "A", supplied := 30, comment := "",
         unallocated := false },
       { orderNo := some "O1", technician := "B", supplied := 20, comment := "",
         unallocated := false }])] }

/-- Store for the C5 failing input. -/
def c5State : DBState := { currentRegion := "R", regions := [("R", c5Region)] }

/-- The card the daily screen builds for technician `"A"` requesting
30 L more on `"O1"`: `updateOrderDetails` sets its `max` attribute to
`min(30 - 30, 100 - 50) = 0`. -/
def c5Card : Card := mkCard c5Region c5Order "A" 30

/-- C5 (code bug): on a store satisfying every structural invariant,
technician `"A"` has 0 L of remaining allocation on `"O1"`, so the
card's `max` attribute is `0` and the spec formula
`min(requested, remaining-allocation, remaining-balance)` gives an
actual amount of 0.  But `saveDaily` reads the cap as
`+input.max || Infinity`, and `+"0" || Infinity` evaluates to
`Infinity`: the cap is defeated exactly when the remaining allocation
is zero, the full 30 L request is applied, the order's suppliedTotal
jumps from 50 to 80, and the appended entry records 30 L. -/
theorem claim5_cap_defeated :
    Good c5State ∧
      c5Card.maxA = some 0 ∧
      specActualAmt c5Region c5Order "A" 30 = 0 ∧
      (alookup "R" (saveDaily c5State "2026-01-02" [c5Card]).regions).map
          (fun r => (alookup "O1" r.orders).map Order.suppliedTotal) =
        some (some 80) ∧
      (alookup "R" (saveDaily c5State "2026-01-02" [c5Card]).regions).map
          (fun r => (alookup "2026-01-02" r.dailyLog).map
            (fun es => es.map Entry.supplied)) =
        some (some [30]) := by
  refine ⟨by decide, rfl, by decide, rfl, rfl⟩

/- ── Claim C8 ──────────────────────────────────────────────────────── -/

/-- Number of entries stored under `date` in a region's daily log. -/
def logLen (date : String) (r : Region) : Nat :=
  ((alookup date r.dailyLog).getD []).length

theorem logLen_pushEntry (date : String) (e : Entry) (r : Region) :
    logLen date (pushEntry date e r) = logLen date r + 1 := by
  unfold logLen pushEntry
  rw [alookup_aset_self]
  simp

theorem logLen_procCard (date : String) (acc : Region × Nat × Nat) (c : Card) :
    logLen date (procCard date acc c).1 + acc.2.1 =
      logLen date acc.1 + (procCard date acc c).2.1 := by
  unfold procCard
  repeat' (first | split | dsimp only)
  all_goals simp [logLen, pushEntry, alookup_aset_self]
  all_goals omega

theorem logLen_foldl (date : String) (cards : List Card) :
    ∀ acc : Region × Nat × Nat,
      logLen date (cards.foldl (procCard date) acc).1 + acc.2.1 =
        logLen date acc.1 + (cards.foldl (procCard date) acc).2.1 := by
  induction cards with
  | nil => intro acc; rfl
  | cons c cs ih =>
      intro acc
      rw [List.foldl_cons]
      have h1 := logLen_procCard date acc c
      have h2 := ih (procCard date acc c)
      omega

/-- C8 (counterexample): a single candidate card with a zero requested
amount is accounted for in NEITHER count: `saveDailyRes` returns
`(saved, skipped) = (0, 0)` for the one-card batch, because cards with
a blank technician or a non-positive amount fall through the loop
without touching either counter. -/
theorem claim8_counterexample :
    (saveDailyRes wState "2026-01-02"
        [{ tech := "A", supplied := 0, unallocated := false, comment := "",
           orderNo := some "O1", maxA := none }]).2 = (0, 0) ∧
      [({ tech := "A", supplied := 0, unallocated := false, comment := "",
          orderNo := some "O1", maxA := none } : Card)].length = 1 := by
  refine ⟨?_, rfl⟩
  decide

/-- C8 (amended): the two returned counts account for the persisted and
the comment-less-unallocated entries only.  (1) The skipped counter
increments exactly on a card that passes the technician/amount screen,
is unallocated and has an empty comment — such cards are never
persisted; (2) the saved counter equals the number of entries actually
persisted under the batch date (each processed batch appends exactly
`saved` entries).  Cards with a blank technician or non-positive
amount, and allocated cards whose order is missing, blank or CLOSED,
are dropped silently and appear in NEITHER count, refuting the
claim's 'each candidate entry is accounted for in exactly one of the
two returned counts'. -/
theorem claim8_counts :
    (∀ (date : String) (acc : Region × Nat × Nat) (c : Card),
        (procCard date acc c).2.2 =
          acc.2.2 +
            (if ¬(c.tech = "" ∨ c.supplied ≤ 0) ∧ c.unallocated = true ∧ c.comment = ""
             then 1 else 0)) ∧
      (∀ (date : String) (cards : List Card) (acc : Region × Nat × Nat),
        logLen date (cards.foldl (procCard date) acc).1 + acc.2.1 =
          logLen date acc.1 + (cards.foldl (procCard date) acc).2.1) := by
  constructor
  · intro date acc c
    unfold procCard
    repeat' (first | split | dsimp only)
    all_goals simp_all
    all_goals omega
  · intro date cards acc
    exact logLen_foldl date cards acc

/-- C8 (witness): the skipped-count characterization evaluated on a
concrete unallocated card without a comment. -/
theorem claim8_witness :
    (procCard "2026-01-02" (wRegion, 0, 0)
        { tech := "A", supplied := 5, unallocated := true, comment := "",
          orderNo := none, maxA := none }).2.2 =
      0 +
        (if ¬(("A" : String) = "" ∨ (5 : Int) ≤ 0) ∧ (true = true) ∧ ("" : String) = ""
         then 1 else 0) :=
  claim8_counts.1 "2026-01-02" (wRegion, 0, 0)
    { tech := "A", supplied := 5, unallocated := true, comment := "",
      orderNo := none, maxA := none }

/- ── Claim C6 ──────────────────────────────────────────────────────── -/

theorem sumBy_add (f g : α → Int) (l : List (String × α)) :
    sumBy (fun a => f a + g a) l = sumBy f l + sumBy g l := by
  induction l with
  | nil => rfl
  | cons p t ih =>
      simp only [sumBy]
      rw [ih]
      ring

theorem techSumE_zero_of_count (tech : String) (es : List Entry)
    (h : techCountE tech es = 0) : techSumE tech es = 0 := by
  induction es with
  | nil => rfl
  | cons e t ih =>
      rw [techCountE] at h
      rw [techSumE]
      by_cases he : e.technician = tech
      · rw [if_pos he] at h
        omega
      · rw [if_neg he] at h
        simp only [Nat.zero_add] at h
        rw [if_neg he, ih h]
        ring

theorem techSumE_rename (oldN newN : String) (h : oldN ≠ newN) (es : List Entry) :
    techSumE newN (es.map (renameEntryTech oldN newN)) =
      techSumE newN es + techSumE oldN es := by
  induction es with
  | nil => rfl
  | cons e t ih =>
      by_cases he : e.technician = oldN
      · simp [techSumE, renameEntryTech, he, h, Ne.symm h, ih]
        try ring
      · by_cases he2 : e.technician = newN
        · simp [techSumE, renameEntryTech, he, he2, h, Ne.symm h, ih]
          try ring
        · simp [techSumE, renameEntryTech, he, he2, h, Ne.symm h, ih]
          try ring

theorem techCountE_rename (oldN newN : String) (h : oldN ≠ newN) (es : List Entry) :
    techCountE oldN (es.map (renameEntryTech oldN newN)) = 0 := by
  induction es with
  | nil => rfl
  | cons e t ih =>
      by_cases he : e.technician = oldN
      · simp [techCountE, renameEntryTech, he, Ne.symm h, ih]
      · simp [techCountE, renameEntryTech, he, Ne.symm h, ih]

theorem techSumR_rename (oldN newN : String) (h : oldN ≠ newN) (r : Region)
    (hNewR : techCountR newN r = 0) :
    techSumR newN (renameTechRegion oldN newN r) = techSumR oldN r ∧
      techCountR oldN (renameTechRegion oldN newN r) = 0 := by
  have hz : ∀ p ∈ r.dailyLog, techCountE newN p.2 = 0 := by
    intro p hp
    exact List.sum_eq_zero_iff.mp hNewR _
      (List.mem_map_of_mem (fun q => techCountE newN q.2) hp)
  constructor
  · unfold techSumR renameTechRegion
    dsimp only
    rw [sumBy_mapVals]
    have h1 : sumBy (fun es => techSumE newN (List.map (renameEntryTech oldN newN) es))
          r.dailyLog =
        sumBy (fun es => techSumE newN es + techSumE oldN es) r.dailyLog :=
      sumBy_congr (fun p _ => techSumE_rename oldN newN h p.2)
    rw [h1, sumBy_add]
    have h2 : sumBy (fun es => techSumE newN es) r.dailyLog = 0 :=
      sumBy_zero (fun p hp => techSumE_zero_of_count newN p.2 (hz p hp))
    rw [h2]
    ring
  · unfold techCountR renameTechRegion
    dsimp only
    apply List.sum_eq_zero_iff.mpr
    intro x hx
    rcases List.mem_map.mp hx with ⟨p, hp, rfl⟩
    rcases mem_mapVals hp with ⟨q, _, rfl⟩
    exact techCountE_rename oldN newN h q.2

/-- Region whose technician list does NOT contain `"A"` although its
daily log still holds an entry recorded under `"A"` (the technician was
deleted; `deleteTech` keeps history). -/
def c6Region : Region :=
  { technicians := [], technicianPlates := [], orders := [],
    dailyLog := [("2026-01-01",
      [{ orderNo := none, technician := "A", supplied := 5, comment := "c",
         unallocated := true }])] }

/-- Store for the C6 counterexample. -/
def c6State : DBState := { currentRegion := "R", regions := [("R", c6Region)] }

/-- C6 (counterexample): the claim fails for stores holding history
under a name absent from a region's technician list. `_renameTech`
skips any region whose technician list lacks the old name
(`indexOf === -1` early return), so the entry recorded under `"A"` is
left untouched: the pre-rename total under `"A"` is 5, the post-rename
total under `"B"` is 0, and one entry remains under the old name. -/
theorem claim6_counterexample :
    techSumDB "A" c6State = 5 ∧
      techSumDB "B" (renameTech c6State "A" "B") = 0 ∧
      techCountDB "A" (renameTech c6State "A" "B") = 1 := by
  refine ⟨rfl, ?_, ?_⟩ <;> decide

/-- C6 (amended): renaming a technician from `old` to `new` preserves
the supplied-litres total attributed to the identity and leaves no
entries under the old name, PROVIDED the new name is non-blank and
distinct from the old, every region's technician list contains the old
name (regions lacking it are skipped wholesale, history included), and
no daily entry is already recorded under the new name (such entries
would be merged into the new identity's total). -/
theorem claim6_rename_sum (s : DBState) (oldN newN : String)
    (h0 : newN ≠ "") (h : oldN ≠ newN)
    (hReg : ∀ p ∈ s.regions, oldN ∈ p.2.technicians)
    (hNew : techCountDB newN s = 0) :
    techSumDB newN (renameTech s oldN newN) = techSumDB oldN s ∧
      techCountDB oldN (renameTech s oldN newN) = 0 := by
  have hNew2 : ∀ p ∈ s.regions, techCountR newN p.2 = 0 := by
    intro p hp
    exact List.sum_eq_zero_iff.mp hNew _
      (List.mem_map_of_mem (fun q => techCountR newN q.2) hp)
  have main : ∀ l : List (String × Region),
      (∀ p ∈ l, oldN ∈ p.2.technicians) →
      (∀ p ∈ l, techCountR newN p.2 = 0) →
      sumBy (techSumR newN)
          (l.map (fun p =>
            if oldN ∈ p.2.technicians then (p.1, renameTechRegion oldN newN p.2) else p)) =
        sumBy (techSumR oldN) l ∧
      ((l.map (fun p =>
            if oldN ∈ p.2.technicians then (p.1, renameTechRegion oldN newN p.2) else p)).map
          (fun p => techCountR oldN p.2)).sum = 0 := by
    intro l
    induction l with
    | nil => intro _ _; exact ⟨rfl, rfl⟩
    | cons p t ih =>
        intro hR hN
        have hp := hR p (List.mem_cons_self _ _)
        have hn := hN p (List.mem_cons_self _ _)
        have iht := ih (fun q hq => hR q (List.mem_cons_of_mem _ hq))
                       (fun q hq => hN q (List.mem_cons_of_mem _ hq))
        have hr := techSumR_rename oldN newN h p.2 hn
        simp only [List.map_cons, if_pos hp, sumBy, List.sum_cons]
        constructor
        · rw [hr.1, iht.1]
        · rw [hr.2, iht.2]
  have hrw : renameTech s oldN newN =
      { s with
        regions := s.regions.map (fun p =>
          if oldN ∈ p.2.technicians then (p.1, renameTechRegion oldN newN p.2) else p) } := by
    unfold renameTech
    rw [if_neg h0, if_neg (fun hh : newN = oldN => h hh.symm)]
  rw [hrw]
  exact main s.regions hReg hNew2

/-- C6 (witness): the amended theorem applied to the populated store
`wState` (whose single region lists technician `"A"`): renaming
`"A"` to `"B"` carries the 5 supplied litres over to `"B"` and leaves
no entry under `"A"`. -/
theorem claim6_witness :
    ("B" : String) ≠ "" ∧ ("A" : String) ≠ "B" ∧
      (∀ p ∈ wState.regions, "A" ∈ p.2.technicians) ∧
      techCountDB "B" wState = 0 ∧
      (techSumDB "B" (renameTech wState "A" "B") = techSumDB "A" wState ∧
        techCountDB "A" (renameTech wState "A" "B") = 0) :=
  ⟨by decide, by decide, by decide, by decide,
    claim6_rename_sum wState "A" "B" (by decide) (by decide) (by decide) (by decide)⟩
